import Mathlib

/-!
Verification development for the `minetest_packages` repository, a read-only
Python client for a ContentDB package catalog.

The development shallowly embeds the two source files:

* `minetest_packages/package.py` — the `Package` record and its JSON parser;
* `minetest_packages/api.py` — URL construction (`make_url`, `search_url`,
  `package_url`), the network operations (`fetch`), and the search entities
  (`SearchItem`, `Search`).

External libraries are embedded as follows.

* `anyjson.loads` (JSON text decoding) is abstracted away: every parsing
  function takes the already-decoded JSON value (`Json` below).  JSON numbers
  are modelled as integers; no claim considered here involves fractional
  numbers.  Python decodes duplicate object keys by keeping the last one, so
  object field lookup returns the last matching binding.
* `requests.get` is abstracted by passing the HTTP transport as a function
  from the request URL to the delivered response (`HttpResponse`).  Transport
  failures that raise inside the HTTP library are outside the model; the model
  covers every delivered response, of any status code.
* `urllib.parse.quote` and `urllib.parse.urljoin` are embedded from CPython's
  `urllib/parse.py` (`quote` with its default `safe='/'`; `urljoin` with its
  RFC 3986 style resolution, including `uses_relative` / `uses_netloc`).  The
  model omits only the WHATWG control-character stripping and the bracketed
  IPv6 host validation of `urlsplit`; no string considered here contains
  control characters or brackets.
* `datetime.datetime.fromisoformat` / `datetime.datetime.isoformat` are
  embedded from CPython's `datetime` module (the strict parser of
  CPython <= 3.10; every string appearing in the statements below is parsed
  identically by the permissive 3.11+ parser).  Numeric field substrings are
  required to be ASCII digits (Python's `int` additionally tolerates
  surrounding whitespace and an explicit sign, which no string below uses).
  Timezone offsets are modelled as a signed count of microseconds.

Python exceptions are modelled by `Except DecodeError`: `keyError` is a
`KeyError` from a missing dictionary key, `typeError` a `TypeError` (indexing
a non-object, or `fromisoformat` applied to a non-string), `valueError` a
`ValueError` (a malformed timestamp string).  The specification groups all of
these under its `DecodeError` family.
-/

namespace MinetestPackages

/-- JSON values as decoded by `anyjson.loads`.  Objects keep their binding
list; `lookupLast` below reproduces Python's last-duplicate-wins decoding. -/
inductive Json where
  | null : Json
  | bool (b : Bool) : Json
  | num (n : Int) : Json
  | str (s : String) : Json
  | arr (elems : List Json) : Json
  | obj (fields : List (String × Json)) : Json

mutual

/-- Decidable equality of JSON values (written by hand because `Json` nests
through `List`). -/
def Json.decEq : (a b : Json) → Decidable (a = b)
  | .null, .null => isTrue rfl
  | .null, .bool _ | .null, .num _ | .null, .str _
  | .null, .arr _ | .null, .obj _ => isFalse (fun h => Json.noConfusion h)
  | .bool x, .bool y =>
    if h : x = y then isTrue (by rw [h]) else isFalse (fun hh => h (by injection hh))
  | .bool _, .null | .bool _, .num _ | .bool _, .str _
  | .bool _, .arr _ | .bool _, .obj _ => isFalse (fun h => Json.noConfusion h)
  | .num x, .num y =>
    if h : x = y then isTrue (by rw [h]) else isFalse (fun hh => h (by injection hh))
  | .num _, .null | .num _, .bool _ | .num _, .str _
  | .num _, .arr _ | .num _, .obj _ => isFalse (fun h => Json.noConfusion h)
  | .str x, .str y =>
    if h : x = y then isTrue (by rw [h]) else isFalse (fun hh => h (by injection hh))
  | .str _, .null | .str _, .bool _ | .str _, .num _
  | .str _, .arr _ | .str _, .obj _ => isFalse (fun h => Json.noConfusion h)
  | .arr xs, .arr ys =>
    match Json.decEqList xs ys with
    | isTrue h => isTrue (by rw [h])
    | isFalse n => isFalse (fun hh => n (by injection hh))
  | .arr _, .null | .arr _, .bool _ | .arr _, .num _
  | .arr _, .str _ | .arr _, .obj _ => isFalse (fun h => Json.noConfusion h)
  | .obj xs, .obj ys =>
    match Json.decEqKV xs ys with
    | isTrue h => isTrue (by rw [h])
    | isFalse n => isFalse (fun hh => n (by injection hh))
  | .obj _, .null | .obj _, .bool _ | .obj _, .num _
  | .obj _, .str _ | .obj _, .arr _ => isFalse (fun h => Json.noConfusion h)

/-- Decidable equality of JSON value lists. -/
def Json.decEqList : (xs ys : List Json) → Decidable (xs = ys)
  | [], [] => isTrue rfl
  | [], _ :: _ => isFalse (fun h => List.noConfusion h)
  | _ :: _, [] => isFalse (fun h => List.noConfusion h)
  | x :: xs, y :: ys =>
    match Json.decEq x y, Json.decEqList xs ys with
    | isTrue h1, isTrue h2 => isTrue (by rw [h1, h2])
    | isFalse n, _ => isFalse (fun h => n (by injection h))
    | _, isFalse n => isFalse (fun h => n (by injection h))

/-- Decidable equality of JSON object binding lists. -/
def Json.decEqKV : (xs ys : List (String × Json)) → Decidable (xs = ys)
  | [], [] => isTrue rfl
  | [], _ :: _ => isFalse (fun h => List.noConfusion h)
  | _ :: _, [] => isFalse (fun h => List.noConfusion h)
  | (k1, v1) :: xs, (k2, v2) :: ys =>
    match String.decEq k1 k2, Json.decEq v1 v2, Json.decEqKV xs ys with
    | isTrue hk, isTrue hv, isTrue ht => isTrue (by rw [hk, hv, ht])
    | isFalse n, _, _ =>
      isFalse (fun h => by injection h with h1 h2; exact n (congrArg Prod.fst h1))
    | _, isFalse n, _ =>
      isFalse (fun h => by injection h with h1 h2; exact n (congrArg Prod.snd h1))
    | _, _, isFalse n => isFalse (fun h => n (by injection h))

end

instance : DecidableEq Json := Json.decEq

/-- Failure values for the parsing paths, naming the Python exception class
each constructor stands for. -/
inductive DecodeError where
  | keyError (k : String) : DecodeError
  | typeError : DecodeError
  | valueError : DecodeError
deriving DecidableEq

/-- Last binding of a key in an object's field list, matching how Python's
JSON decoding collapses duplicate keys (later bindings win). -/
def lookupLast (k : String) : List (String × Json) → Option Json
  | [] => none
  | (k', v) :: rest =>
    match lookupLast k rest with
    | some v' => some v'
    | none => if k' = k then some v else none

/-- Dictionary access `fields[k]`: `KeyError` when the key is absent,
`TypeError` when the value indexed is not an object. -/
def Json.get : Json → String → Except DecodeError Json
  | .obj kvs, k =>
    match lookupLast k kvs with
    | some v => .ok v
    | none => .error (.keyError k)
  | _, _ => .error .typeError

/-- True exactly on `.ok` results. -/
def exOk {α : Type} : Except DecodeError α → Bool
  | .ok _ => true
  | .error _ => false

deriving instance DecidableEq for Except

/-! ## `datetime`: ISO-8601 parsing and formatting -/

/-- Gregorian leap-year test, as in `datetime._is_leap`. -/
def isLeap (y : Nat) : Bool := y % 4 = 0 && (y % 100 ≠ 0 || y % 400 = 0)

/-- Length of a month, as in `datetime._days_in_month`. -/
def daysInMonth (y m : Nat) : Nat :=
  if m = 2 then (if isLeap y then 29 else 28)
  else if m = 4 ∨ m = 6 ∨ m = 9 ∨ m = 11 then 30
  else 31

/-- A `datetime.datetime` value.  `tzoffset` is the UTC offset of the
attached `timezone` in microseconds (`none` for a naive value). -/
structure Datetime where
  year : Nat
  month : Nat
  day : Nat
  hour : Nat
  minute : Nat
  second : Nat
  microsecond : Nat
  tzoffset : Option Int
deriving DecidableEq

/-- Field ranges enforced by the `datetime.datetime` constructor and by
`timezone` (whose offset is strictly between -24 and +24 hours). -/
def Datetime.valid (d : Datetime) : Bool :=
  decide (1 ≤ d.year ∧ d.year ≤ 9999 ∧ 1 ≤ d.month ∧ d.month ≤ 12 ∧
    1 ≤ d.day ∧ d.day ≤ daysInMonth d.year d.month ∧ d.hour ≤ 23 ∧
    d.minute ≤ 59 ∧ d.second ≤ 59 ∧ d.microsecond ≤ 999999) &&
  d.tzoffset.all (fun off => off.natAbs < 86400000000)

/-- Value of one ASCII digit character. -/
def parseDigit (c : Char) : Option Nat :=
  if 48 ≤ c.toNat ∧ c.toNat ≤ 57 then some (c.toNat - 48) else none

/-- Value of a two-digit substring, as `int` applied to it. -/
def parse2 (a b : Char) : Option Nat :=
  match parseDigit a, parseDigit b with
  | some x, some y => some (10 * x + y)
  | _, _ => none

/-- Value of a three-digit substring. -/
def parse3 (a b c : Char) : Option Nat :=
  match parseDigit a, parseDigit b, parseDigit c with
  | some x, some y, some z => some (100 * x + 10 * y + z)
  | _, _, _ => none

/-- Value of a four-digit substring. -/
def parse4 (a b c d : Char) : Option Nat :=
  match parse2 a b, parse2 c d with
  | some hi, some lo => some (100 * hi + lo)
  | _, _ => none

/-- `_parse_isoformat_date`: exactly `YYYY-MM-DD`. -/
def parseIsoDate : List Char → Option (Nat × Nat × Nat)
  | [a, b, c, d, e, f, g, k, i, j] =>
    if e = '-' ∧ k = '-' then
      match parse4 a b c d, parse2 f g, parse2 i j with
      | some y, some mo, some dy => some (y, mo, dy)
      | _, _, _ => none
    else none
  | _ => none

/-- `_parse_hh_mm_ss_ff`: `HH`, `HH:MM`, `HH:MM:SS`, `HH:MM:SS.fff` or
`HH:MM:SS.ffffff` (a three-digit fraction is scaled to microseconds).  The
Python loop accepts exactly these five shapes; every other length or
separator raises `ValueError`. -/
def parseHMSF : List Char → Option (Nat × Nat × Nat × Nat)
  | [a, b] =>
    match parse2 a b with
    | some h => some (h, 0, 0, 0)
    | none => none
  | [a, b, c1, m1, m2] =>
    if c1 = ':' then
      match parse2 a b, parse2 m1 m2 with
      | some h, some m => some (h, m, 0, 0)
      | _, _ => none
    else none
  | [a, b, c1, m1, m2, c2, s1, s2] =>
    if c1 = ':' ∧ c2 = ':' then
      match parse2 a b, parse2 m1 m2, parse2 s1 s2 with
      | some h, some m, some s => some (h, m, s, 0)
      | _, _, _ => none
    else none
  | [a, b, c1, m1, m2, c2, s1, s2, dot, f1, f2, f3] =>
    if c1 = ':' ∧ c2 = ':' ∧ dot = '.' then
      match parse2 a b, parse2 m1 m2, parse2 s1 s2, parse3 f1 f2 f3 with
      | some h, some m, some s, some f => some (h, m, s, 1000 * f)
      | _, _, _, _ => none
    else none
  | [a, b, c1, m1, m2, c2, s1, s2, dot, f1, f2, f3, f4, f5, f6] =>
    if c1 = ':' ∧ c2 = ':' ∧ dot = '.' then
      match parse2 a b, parse2 m1 m2, parse2 s1 s2,
            parse3 f1 f2 f3, parse3 f4 f5 f6 with
      | some h, some m, some s, some hi, some lo =>
        some (h, m, s, 1000 * hi + lo)
      | _, _, _, _, _ => none
    else none
  | _ => none

/-- Splits a list at the first occurrence of a character, returning the
pieces before and after it. -/
def splitFirst (p : Char) : List Char → Option (List Char × List Char)
  | [] => none
  | c :: rest =>
    if c = p then some ([], rest)
    else
      match splitFirst p rest with
      | some (pre, post) => some (c :: pre, post)
      | none => none

/-- Position of the timezone sign in `_parse_isoformat_time`: the first `-`
anywhere in the time string, else the first `+`.  Returns the characters
before the sign, whether the sign is `+`, and the characters after it. -/
def splitSign (cs : List Char) : Option (List Char × Bool × List Char) :=
  match splitFirst '-' cs with
  | some (pre, post) => some (pre, false, post)
  | none =>
    match splitFirst '+' cs with
    | some (pre, post) => some (pre, true, post)
    | none => none

/-- `_parse_isoformat_time`: a `_parse_hh_mm_ss_ff` time, optionally followed
by a signed offset whose text must be 5, 8 or 15 characters long.  An
all-zero offset yields UTC; otherwise the offset must be strictly less than
24 hours (the `timezone` constructor's check). -/
def parseIsoTime (cs : List Char) : Option (Nat × Nat × Nat × Nat × Option Int) :=
  match splitSign cs with
  | none =>
    match parseHMSF cs with
    | some (h, m, s, us) => some (h, m, s, us, none)
    | none => none
  | some (timestr, plus, tzstr) =>
    match parseHMSF timestr with
    | none => none
    | some (h, m, s, us) =>
      if tzstr.length = 5 ∨ tzstr.length = 8 ∨ tzstr.length = 15 then
        match parseHMSF tzstr with
        | none => none
        | some (th, tm, ts, tus) =>
          let total : Int := (((th * 3600 + tm * 60 + ts) * 1000000 + tus : Nat) : Int)
          if total = 0 then some (h, m, s, us, some 0)
          else if total < 86400000000 then
            some (h, m, s, us, some (if plus then total else -total))
          else none
      else none

/-- Range validation performed by the `datetime` constructor at the end of
`fromisoformat`. -/
def checkValid (d : Datetime) : Option Datetime :=
  if d.valid then some d else none

/-- `datetime.fromisoformat`: the date is read from the first ten characters,
the character at index 10 (when present) is an arbitrary separator, and the
characters from index 11 on are the time string (absent means midnight). -/
def Datetime.fromisoformat (s : String) : Option Datetime :=
  match parseIsoDate (s.data.take 10) with
  | none => none
  | some (y, mo, dy) =>
    if (s.data.drop 11).isEmpty then checkValid ⟨y, mo, dy, 0, 0, 0, 0, none⟩
    else
      match parseIsoTime (s.data.drop 11) with
      | none => none
      | some (h, mi, se, us, tz) => checkValid ⟨y, mo, dy, h, mi, se, us, tz⟩

/-- Two-digit zero-padded decimal rendering (`%02d`; all formatted datetime
components are below 100). -/
def pad2 (n : Nat) : List Char := [Nat.digitChar (n / 10 % 10), Nat.digitChar (n % 10)]

/-- Four-digit zero-padded decimal rendering (`%04d`; years are below 10000). -/
def pad4 (n : Nat) : List Char := pad2 (n / 100) ++ pad2 (n % 100)

/-- Six-digit zero-padded decimal rendering (`%06d`; microseconds are below
1000000). -/
def pad6 (n : Nat) : List Char := pad2 (n / 10000) ++ pad2 (n / 100 % 100) ++ pad2 (n % 100)

/-- `_format_offset`: `±HH:MM`, extended with `:SS` when the offset has a
sub-minute part and further with `.ffffff` when it has microseconds. -/
def formatOffset : Option Int → List Char
  | none => []
  | some off =>
    let sign := if off < 0 then '-' else '+'
    let a := off.natAbs
    let hh := a / 3600000000
    let mm := a / 60000000 % 60
    let ss := a / 1000000 % 60
    let uu := a % 1000000
    sign :: pad2 hh ++ ':' :: pad2 mm ++
      (if ss ≠ 0 ∨ uu ≠ 0 then
        ':' :: pad2 ss ++ (if uu ≠ 0 then '.' :: pad6 uu else [])
      else [])

/-- `datetime.isoformat` with the default `'T'` separator: microseconds are
printed only when nonzero, then the formatted offset of an aware value. -/
def Datetime.isoformat (d : Datetime) : String :=
  ⟨pad4 d.year ++ '-' :: pad2 d.month ++ '-' :: pad2 d.day ++
   'T' :: pad2 d.hour ++ ':' :: pad2 d.minute ++ ':' :: pad2 d.second ++
   (if d.microsecond ≠ 0 then '.' :: pad6 d.microsecond else []) ++
   formatOffset d.tzoffset⟩

/-! ## `minetest_packages/package.py` -/

/-- The `Package` attr record.  Apart from `created_at` (which passes through
`fromisoformat`) the parser stores the JSON field values without any type
validation, so the fields hold arbitrary JSON values. -/
structure Package where
  name : Json
  author : Json
  title : Json
  short_description : Json
  long_description : Json
  repo : Json
  provides : Json
  release : Json
  score : Json
  license : Json
  created_at : Datetime
  maintainers : Json
  website : Json
  issue_tracker : Json
  thumbnail : Json
  screenshots : Json
deriving DecidableEq

/-- Coercion of the `created_at` field to a string: `fromisoformat` raises
`TypeError` on any non-string argument. -/
def asStr : Json → Except DecodeError String
  | .str s => .ok s
  | _ => .error .typeError

/-- `datetime.fromisoformat` as used by `Package.parse`: a string the parser
rejects raises `ValueError`. -/
def parseTimestamp (s : String) : Except DecodeError Datetime :=
  match Datetime.fromisoformat s with
  | some d => .ok d
  | none => .error .valueError

/-- `Package.parse`: `fields["created_at"]` is read and converted first, then
every constructor argument is read by plain dictionary access, in source
order.  All sixteen keys are accessed unconditionally. -/
def Package.parse (fields : Json) : Except DecodeError Package := do
  let caj ← fields.get "created_at"
  let cas ← asStr caj
  let created_at ← parseTimestamp cas
  let name ← fields.get "name"
  let author ← fields.get "author"
  let title ← fields.get "title"
  let short_description ← fields.get "short_description"
  let long_description ← fields.get "long_description"
  let repo ← fields.get "repo"
  let provides ← fields.get "provides"
  let release ← fields.get "release"
  let score ← fields.get "score"
  let license ← fields.get "license"
  let maintainers ← fields.get "maintainers"
  let website ← fields.get "website"
  let issue_tracker ← fields.get "issue_tracker"
  let thumbnail ← fields.get "thumbnail"
  let screenshots ← fields.get "screenshots"
  pure ⟨name, author, title, short_description, long_description, repo,
    provides, release, score, license, created_at, maintainers, website,
    issue_tracker, thumbnail, screenshots⟩

/-! ## `urllib.parse`: `quote`, `urlsplit`, `urlunsplit`, `urljoin` -/

/-- Bytes that `quote` never escapes: ASCII letters, digits, and
`_`, `.`, `-`, `~` (the `_ALWAYS_SAFE` set). -/
def alwaysSafe (b : Nat) : Bool :=
  (65 ≤ b && b ≤ 90) || (97 ≤ b && b ≤ 122) || (48 ≤ b && b ≤ 57) ||
  b = 95 || b = 46 || b = 45 || b = 126

/-- Bytes left intact by `quote` with its default `safe='/'` argument:
the always-safe set plus the slash (byte 47). -/
def quoteSafe (b : Nat) : Bool := alwaysSafe b || b = 47

/-- Uppercase hexadecimal digit, as used by percent-escapes. -/
def hexU (n : Nat) : Char := if n < 10 then Nat.digitChar n else Char.ofNat (55 + n)

/-- UTF-8 encoding of one character (arithmetic form of the standard
byte layout). -/
def utf8Bytes (c : Char) : List Nat :=
  let n := c.toNat
  if n < 128 then [n]
  else if n < 2048 then [192 + n / 64, 128 + n % 64]
  else if n < 65536 then [224 + n / 4096, 128 + n / 64 % 64, 128 + n % 64]
  else [240 + n / 262144, 128 + n / 4096 % 64, 128 + n / 64 % 64, 128 + n % 64]

/-- Rendering of one byte by `quote`: kept verbatim when safe, otherwise a
percent-escape with uppercase hexadecimal digits. -/
def quoteByte (b : Nat) : List Char :=
  if quoteSafe b then [Char.ofNat b] else ['%', hexU (b / 16), hexU (b % 16)]

/-- `urllib.parse.quote` with its default `safe='/'`: the string is UTF-8
encoded and every unsafe byte is percent-escaped. -/
def quote (s : String) : String :=
  ⟨s.data.flatMap (fun c => (utf8Bytes c).flatMap quoteByte)⟩

/-- `"/".join(...)` over already-quoted components. -/
def joinComponents : List String → String
  | [] => ""
  | [x] => x
  | x :: xs => x ++ "/" ++ joinComponents xs

/-- Result of `urlsplit`: scheme, network location, path, query, fragment. -/
structure SplitUrl where
  scheme : String
  netloc : String
  path : String
  query : String
  fragment : String
deriving DecidableEq

/-- Characters allowed in a URL scheme after the initial letter. -/
def schemeChar (c : Char) : Bool :=
  c.isAlpha || c.isDigit || c = '+' || c = '-' || c = '.'

/-- `urllib.parse.urlsplit` (with `allow_fragments=True`, as `urljoin` calls
it): an optional scheme before the first `:`, a `//`-introduced network
location running to the first `/`, `?` or `#`, then fragment and query split
off at the first `#` and `?`.  `defaultScheme` is the second positional
argument. -/
def urlsplit (url : String) (defaultScheme : String) : SplitUrl :=
  let cs := url.data
  let (scheme, rest) :=
    match splitFirst ':' cs with
    | some (pre, post) =>
      if h : pre ≠ [] then
        if pre.head h |>.isAlpha then
          if pre.all schemeChar then (String.mk (pre.map Char.toLower), post)
          else (defaultScheme, cs)
        else (defaultScheme, cs)
      else (defaultScheme, cs)
    | none => (defaultScheme, cs)
  let (netloc, rest2) :=
    match rest with
    | '/' :: '/' :: tail =>
      let p := tail.span (fun c => c ≠ '/' && c ≠ '?' && c ≠ '#')
      (p.1, p.2)
    | _ => ([], rest)
  let (rest3, fragment) :=
    match splitFirst '#' rest2 with
    | some (pre, post) => (pre, post)
    | none => (rest2, [])
  let (path, query) :=
    match splitFirst '?' rest3 with
    | some (pre, post) => (pre, post)
    | none => (rest3, [])
  ⟨scheme, String.mk netloc, String.mk path, String.mk query, String.mk fragment⟩

/-- `urllib.parse.urlunsplit`. -/
def urlunsplit (u : SplitUrl) : String :=
  let url := u.path
  let url :=
    if u.netloc ≠ "" ∨ url.take 2 = "//" then
      "//" ++ u.netloc ++ (if url ≠ "" ∧ url.take 1 ≠ "/" then "/" ++ url else url)
    else url
  let url := if u.scheme ≠ "" then u.scheme ++ ":" ++ url else url
  let url := if u.query ≠ "" then url ++ "?" ++ u.query else url
  if u.fragment ≠ "" then url ++ "#" ++ u.fragment else url

/-- Schemes that allow relative references (`urllib.parse.uses_relative`). -/
def usesRelative : List String :=
  ["", "ftp", "http", "gopher", "nntp", "imap", "wais", "file", "https",
   "shttp", "mms", "prospero", "rtsp", "rtspu", "sftp", "svn", "svn+ssh",
   "ws", "wss"]

/-- Schemes with a network location (`urllib.parse.uses_netloc`). -/
def usesNetloc : List String :=
  ["", "ftp", "http", "gopher", "nntp", "telnet", "imap", "wais", "file",
   "mms", "https", "shttp", "snews", "prospero", "rtsp", "rtspu", "rsync",
   "svn", "svn+ssh", "sftp", "nfs", "git", "git+ssh", "ws", "wss",
   "itms-services"]

/-- `str.split('/')`: splits at every slash, keeping empty pieces. -/
def splitSlashAux (cs : List Char) : List (List Char) :=
  match cs with
  | [] => [[]]
  | c :: rest =>
    match splitSlashAux rest with
    | [] => [[]]
    | r :: rs => if c = '/' then [] :: r :: rs else (c :: r) :: rs

/-- `str.split('/')` on a string, producing the segment strings. -/
def splitSlash (s : String) : List String := (splitSlashAux s.data).map String.mk

/-- The slice assignment `segments[1:-1] = filter(None, segments[1:-1])`:
empty strings are dropped from every position but the first and last. -/
def filterInner : List String → List String
  | [] => []
  | [x] => [x]
  | x :: y :: rest =>
    x :: (((y :: rest).dropLast).filter (fun s => s ≠ "")) ++
      ((y :: rest).getLast?).toList

/-- The dot-segment resolution loop of `urljoin`: `..` pops the last resolved
segment (popping an empty stack is ignored), `.` is skipped, anything else is
appended. -/
def resolveSegs (acc : List String) : List String → List String
  | [] => acc
  | s :: rest =>
    if s = ".." then resolveSegs acc.dropLast rest
    else if s = "." then resolveSegs acc rest
    else resolveSegs (acc ++ [s]) rest

/-- `urllib.parse.urljoin` (default `allow_fragments=True`), following
CPython's implementation line by line. -/
def urljoin (base url : String) : String :=
  if base = "" then url
  else if url = "" then base
  else
    let b := urlsplit base ""
    let r := urlsplit url b.scheme
    if r.scheme ≠ b.scheme ∨ r.scheme ∉ usesRelative then url
    else
      let step : SplitUrl → String := fun u => urlunsplit u
      if r.scheme ∈ usesNetloc ∧ r.netloc ≠ "" then
        step ⟨r.scheme, r.netloc, r.path, r.query, r.fragment⟩
      else
        let netloc := if r.scheme ∈ usesNetloc then b.netloc else r.netloc
        if r.path = "" ∧ r.query = "" then
          step ⟨r.scheme, netloc, b.path, b.query, r.fragment⟩
        else if r.path = "" then
          step ⟨r.scheme, netloc, b.path, r.query, r.fragment⟩
        else
          let baseParts := splitSlash b.path
          let baseParts :=
            if baseParts.getLast? ≠ some "" then baseParts.dropLast else baseParts
          let segments :=
            if r.path.take 1 = "/" then splitSlash r.path
            else filterInner (baseParts ++ splitSlash r.path)
          let resolved := resolveSegs [] segments
          let resolved :=
            if segments.getLast? = some "." ∨ segments.getLast? = some ".." then
              resolved ++ [""]
            else resolved
          let joined := joinComponents resolved
          step ⟨r.scheme, netloc, if joined = "" then "/" else joined, r.query, r.fragment⟩

/-! ## `minetest_packages/api.py` -/

/-- An online ContentDB provider (`OnlineContent`), holding only the base
address. -/
structure OnlineContent where
  base_address : String
deriving DecidableEq

/-- `OnlineContent.make_url`: every component is percent-encoded by `quote`
(default `safe='/'`), the encodings are joined with `/`, and the result is
resolved against the base address by `urljoin`. -/
def OnlineContent.make_url (c : OnlineContent) (components : List String) : String :=
  urljoin c.base_address (joinComponents (components.map quote))

/-- `OnlineContent.search_url`.  In the source the argument is the single
string `"api/packages" "?q=" + query`: the two adjacent literals concatenate
at parse time, so `make_url` receives exactly one component,
`"api/packages?q=" + query`. -/
def OnlineContent.search_url (c : OnlineContent) (query : String) : String :=
  c.make_url ["api/packages?q=" ++ query]

/-- `OnlineContent.package_url`: three components, `"api/packages"`, the
author and the name. -/
def OnlineContent.package_url (c : OnlineContent) (author name : String) : String :=
  c.make_url ["api/packages", author, name]

/-- The module-level default instance `minetest_contentdb`. -/
def minetest_contentdb : OnlineContent := ⟨"https://content.minetest.net"⟩

/-- A delivered HTTP response: the status code and the decoded JSON body
(`response.text` fed through `anyjson.loads`). -/
structure HttpResponse where
  status : Nat
  body : Json
deriving DecidableEq

/-- `OnlineContent.fetch`: performs the GET against `package_url` and hands
the response body straight to `Package.parse`.  The source never inspects the
response status. -/
def OnlineContent.fetch (c : OnlineContent) (http : String → HttpResponse)
    (author name : String) : Except DecodeError Package :=
  Package.parse (http (c.package_url author name)).body

/-- A search result entry (`SearchItem`).  As with `Package`, the parser
stores the JSON field values without type validation, so the fields hold
arbitrary JSON values; `content_db` is the back-reference to the client. -/
structure SearchItem where
  content_db : OnlineContent
  author : Json
  name : Json
  release : Json
  short_description : Json
  title : Json
  package_type : Json
  thumbnail : Json
deriving DecidableEq

/-- `SearchItem.parse`: plain dictionary accesses in source order. -/
def SearchItem.parse (content_db : OnlineContent) (defs : Json) :
    Except DecodeError SearchItem := do
  let author ← defs.get "author"
  let name ← defs.get "name"
  let release ← defs.get "release"
  let short_description ← defs.get "short_description"
  let title ← defs.get "title"
  let package_type ← defs.get "package_type"
  let thumbnail ← defs.get "thumbnail"
  pure ⟨content_db, author, name, release, short_description, title,
    package_type, thumbnail⟩

/-- `SearchItem.fetch`: delegates to `self.content_db.fetch(self.author,
self.name)`.  When either field is not a string the underlying
`urllib.parse.quote` raises `TypeError`, modelled by the guard. -/
def SearchItem.fetch (it : SearchItem) (http : String → HttpResponse) :
    Except DecodeError Package :=
  match it.author, it.name with
  | .str a, .str n => it.content_db.fetch http a n
  | _, _ => .error .typeError

/-- Insertion into a Python dictionary rendered as an association list: an
existing binding of the key is replaced in place, otherwise the new binding
is appended. -/
def dinsert (l : List ((Json × Json) × SearchItem)) (k : Json × Json)
    (v : SearchItem) : List ((Json × Json) × SearchItem) :=
  match l with
  | [] => [(k, v)]
  | (k', v') :: rest => if k' = k then (k, v) :: rest else (k', v') :: dinsert rest k v

/-- Lookup in the association list rendering of a Python dictionary. -/
def dlookup (k : Json × Json) : List ((Json × Json) × SearchItem) → Option SearchItem
  | [] => none
  | (k', v) :: rest => if k' = k then some v else dlookup k rest

/-- A search query result (`Search`); the first field's name reproduces the
source's `content_dbdb`. -/
structure Search where
  content_dbdb : OnlineContent
  items : List ((Json × Json) × SearchItem)
deriving DecidableEq

/-- One iteration of the loop in `Search.parse`: Python evaluates the
assignment's right-hand side (the `SearchItem.parse` call) before the
subscript expressions `mdef["author"]`, `mdef["name"]`. -/
def parseStep (content_db : OnlineContent)
    (acc : List ((Json × Json) × SearchItem)) (mdef : Json) :
    Except DecodeError (List ((Json × Json) × SearchItem)) := do
  let it ← SearchItem.parse content_db mdef
  let a ← mdef.get "author"
  let n ← mdef.get "name"
  pure (dinsert acc (a, n) it)

/-- `Search.parse`: iterates over the decoded JSON array, keying each parsed
item by `(author, name)` in a dictionary (later duplicates overwrite).
Iterating a non-array document raises `TypeError`. -/
def Search.parse (content_db : OnlineContent) (document : Json) :
    Except DecodeError Search :=
  match document with
  | .arr elems => do
    let items ← elems.foldlM (parseStep content_db) []
    pure ⟨content_db, items⟩
  | _ => .error .typeError

/-- `Search.find`: a membership test on the `(author, name)` key followed by
the dictionary access, returning `None` when the key is absent. -/
def Search.find (s : Search) (author name : Json) : Option SearchItem :=
  if (dlookup (author, name) s.items).isSome then dlookup (author, name) s.items
  else none

/-- The `(author, name)` key of one array element, as computed by the two
subscript expressions in the loop of `Search.parse`. -/
def keyOf (mdef : Json) : Except DecodeError (Json × Json) := do
  let a ← mdef.get "author"
  let n ← mdef.get "name"
  pure (a, n)

/-- The last element of the array carrying a given `(author, name)` key
(the element whose item survives last-write-wins insertion). -/
def lastWithKey (k : Json × Json) : List Json → Option Json
  | [] => none
  | e :: rest =>
    match lastWithKey k rest with
    | some e' => some e'
    | none => if keyOf e = .ok k then some e else none

/-! ## Concrete documents used by the examples and counterexamples -/

/-- A complete package document: all required fields present with well-typed
values, the four optional fields present as `null`. -/
def sampleDoc : Json := .obj
  [("name", .str "basic_signs"), ("author", .str "Wuzzy"),
   ("title", .str "Basic Signs"), ("short_description", .str "Signs"),
   ("long_description", .str "Signs mod"),
   ("repo", .str "https://example.org/repo"),
   ("provides", .arr [.str "signs"]), ("release", .num 7),
   ("score", .num 100), ("license", .str "MIT"),
   ("created_at", .str "2018-05-14T13:57:01"),
   ("maintainers", .arr [.str "Wuzzy"]), ("website", .null),
   ("issue_tracker", .null), ("thumbnail", .null), ("screenshots", .null)]

/-- The timestamp of `sampleDoc`. -/
def sampleDatetime : Datetime := ⟨2018, 5, 14, 13, 57, 1, 0, none⟩

/-- The record `Package.parse` produces from `sampleDoc`. -/
def samplePackage : Package :=
  ⟨.str "basic_signs", .str "Wuzzy", .str "Basic Signs", .str "Signs",
   .str "Signs mod", .str "https://example.org/repo", .arr [.str "signs"],
   .num 7, .num 100, .str "MIT", sampleDatetime, .arr [.str "Wuzzy"],
   .null, .null, .null, .null⟩

/-- `sampleDoc` with a date-only `created_at` string. -/
def sampleDocDateOnly : Json := .obj
  [("name", .str "basic_signs"), ("author", .str "Wuzzy"),
   ("title", .str "Basic Signs"), ("short_description", .str "Signs"),
   ("long_description", .str "Signs mod"),
   ("repo", .str "https://example.org/repo"),
   ("provides", .arr [.str "signs"]), ("release", .num 7),
   ("score", .num 100), ("license", .str "MIT"),
   ("created_at", .str "2020-01-01"),
   ("maintainers", .arr [.str "Wuzzy"]), ("website", .null),
   ("issue_tracker", .null), ("thumbnail", .null), ("screenshots", .null)]

/-- The record `Package.parse` produces from `sampleDocDateOnly`. -/
def samplePackageDateOnly : Package :=
  ⟨.str "basic_signs", .str "Wuzzy", .str "Basic Signs", .str "Signs",
   .str "Signs mod", .str "https://example.org/repo", .arr [.str "signs"],
   .num 7, .num 100, .str "MIT", ⟨2020, 1, 1, 0, 0, 0, 0, none⟩,
   .arr [.str "Wuzzy"], .null, .null, .null, .null⟩

/-- `sampleDoc` with the optional `website` field entirely absent (the other
three optional fields are present as `null`). -/
def sampleDocNoWebsite : Json := .obj
  [("name", .str "basic_signs"), ("author", .str "Wuzzy"),
   ("title", .str "Basic Signs"), ("short_description", .str "Signs"),
   ("long_description", .str "Signs mod"),
   ("repo", .str "https://example.org/repo"),
   ("provides", .arr [.str "signs"]), ("release", .num 7),
   ("score", .num 100), ("license", .str "MIT"),
   ("created_at", .str "2018-05-14T13:57:01"),
   ("maintainers", .arr [.str "Wuzzy"]),
   ("issue_tracker", .null), ("thumbnail", .null), ("screenshots", .null)]

/-- A transport that delivers a 404 response whose body is nevertheless a
complete package document. -/
def http404 : String → HttpResponse := fun _ => ⟨404, sampleDoc⟩

/-! ## Claim theorems -/

/-- C9: with base address `https://content.minetest.net`,
`package_url("Wuzzy", "basic_signs")` is exactly
`https://content.minetest.net/api/packages/Wuzzy/basic_signs`. -/
theorem package_url_example :
    OnlineContent.package_url ⟨"https://content.minetest.net"⟩ "Wuzzy" "basic_signs" =
      "https://content.minetest.net/api/packages/Wuzzy/basic_signs" := by decide

/-- C1, counterexample: `search_url` passes the single component
`"api/packages?q=" + query` to `make_url` (the two source literals
concatenate at parse time), so the result has no `/` between `api/packages`
and the percent-encoded query part and differs from `make_url` applied to
the two separate components `"api/packages"` and `"?q=" + query`. -/
theorem search_url_single_component_counterexample :
    OnlineContent.search_url ⟨"https://content.minetest.net"⟩ "foo" =
        "https://content.minetest.net/api/packages%3Fq%3Dfoo" ∧
      OnlineContent.make_url ⟨"https://content.minetest.net"⟩ ["api/packages", "?q=" ++ "foo"] =
        "https://content.minetest.net/api/packages/%3Fq%3Dfoo" ∧
      OnlineContent.search_url ⟨"https://content.minetest.net"⟩ "foo" ≠
        OnlineContent.make_url ⟨"https://content.minetest.net"⟩ ["api/packages", "?q=" ++ "foo"] := by
  decide

/-- C2, counterexample: `quote` is called with its default `safe='/'`, so a
slash inside a single component is not escaped and acts as a path separator:
the one-component call on `"a/b"` yields the same URL as the two-component
call on `"a"`, `"b"`. -/
theorem make_url_slash_leak_counterexample :
    OnlineContent.make_url ⟨"https://content.minetest.net"⟩ ["a/b"] =
        "https://content.minetest.net/a/b" ∧
      OnlineContent.make_url ⟨"https://content.minetest.net"⟩ ["a/b"] =
        OnlineContent.make_url ⟨"https://content.minetest.net"⟩ ["a", "b"] := by
  decide

/-- C4, counterexample: `fetch` never inspects the response status; a 404
response whose body is a complete package document produces an `.ok`
`Package` built from that body, not a transport error. -/
theorem fetch_ignores_status_counterexample :
    OnlineContent.fetch minetest_contentdb http404 "Wuzzy" "basic_signs" =
      .ok samplePackage := by decide

/-- C6, counterexample: a document whose `created_at` is the valid ISO-8601
date-only string `"2020-01-01"` parses successfully, but formatting the
parsed timestamp back yields `"2020-01-01T00:00:00"`, not the original
string. -/
theorem created_at_roundtrip_counterexample :
    Package.parse sampleDocDateOnly = .ok samplePackageDateOnly ∧
      samplePackageDateOnly.created_at.isoformat = "2020-01-01T00:00:00" ∧
      samplePackageDateOnly.created_at.isoformat ≠ "2020-01-01" := by decide

/-- C7, counterexample: a document with every required field valid and the
optional fields `issue_tracker`, `thumbnail`, `screenshots` present as
`null`, but `website` entirely absent, makes `Package.parse` fail with
`KeyError("website")` instead of succeeding. -/
theorem optional_absent_counterexample :
    Package.parse sampleDocNoWebsite = .error (.keyError "website") := by decide

/-! ## Helper lemmas on `Except` binds and object lookups -/

/-- A successful bind factors into a successful first step and a successful
continuation. -/
theorem bind_ok {α β : Type} {x : Except DecodeError α}
    {f : α → Except DecodeError β} {b : β} (h : (x >>= f) = .ok b) :
    ∃ a, x = .ok a ∧ f a = .ok b := by
  cases x with
  | error e => simp [Bind.bind, Except.bind] at h
  | ok a => exact ⟨a, rfl, h⟩

/-- A key whose lookup succeeds occurs among the object's keys. -/
theorem lookupLast_some_mem {kvs : List (String × Json)} {k : String} {v : Json}
    (h : lookupLast k kvs = some v) : k ∈ kvs.map Prod.fst := by
  induction kvs with
  | nil => simp [lookupLast] at h
  | cons hd tl ih =>
    obtain ⟨k', w⟩ := hd
    simp only [lookupLast] at h
    cases hl : lookupLast k tl with
    | some v' =>
      rw [hl] at h
      injection h with h
      subst h
      rw [List.map_cons]
      exact List.mem_cons_of_mem _ (ih hl)
    | none =>
      rw [hl] at h
      by_cases hk : k' = k
      · subst hk
        rw [List.map_cons]
        exact List.mem_cons_self _ _
      · simp [hk] at h

/-- A key occurring among the object's keys has a successful lookup. -/
theorem mem_lookupLast {kvs : List (String × Json)} {k : String}
    (h : k ∈ kvs.map Prod.fst) : ∃ v, lookupLast k kvs = some v := by
  induction kvs with
  | nil => simp at h
  | cons hd tl ih =>
    obtain ⟨k', w⟩ := hd
    simp only [List.map_cons, List.mem_cons] at h
    cases hl : lookupLast k tl with
    | some v' => exact ⟨v', by simp [lookupLast, hl]⟩
    | none =>
      rcases h with h | h
      · subst h
        exact ⟨w, by simp [lookupLast, hl]⟩
      · obtain ⟨v, hv⟩ := ih h
        rw [hv] at hl
        exact absurd hl (by simp)

/-- A successful dictionary access implies the key is present. -/
theorem get_ok_mem {kvs : List (String × Json)} {k : String} {v : Json}
    (h : Json.get (.obj kvs) k = .ok v) : k ∈ kvs.map Prod.fst := by
  simp only [Json.get] at h
  cases hl : lookupLast k kvs with
  | none => rw [hl] at h; exact absurd h (by simp)
  | some w => exact lookupLast_some_mem hl

/-- The fields the specification lists as required (the sixteen attributes
minus the four optional presentation fields). -/
def requiredKeys : List String :=
  ["name", "author", "title", "short_description", "long_description",
   "repo", "provides", "release", "score", "license", "created_at",
   "maintainers"]

/-- All sixteen keys `Package.parse` accesses. -/
def allKeys : List String :=
  requiredKeys ++ ["website", "issue_tracker", "thumbnail", "screenshots"]

/-- A successful `Package.parse` implies every required key was present in
the document. -/
theorem parse_ok_required_present {kvs : List (String × Json)} {p : Package}
    (h : Package.parse (.obj kvs) = .ok p) :
    ∀ k ∈ requiredKeys, k ∈ kvs.map Prod.fst := by
  unfold Package.parse at h
  obtain ⟨caj, h1, h⟩ := bind_ok h
  obtain ⟨cas, h2, h⟩ := bind_ok h
  obtain ⟨cat, h3, h⟩ := bind_ok h
  obtain ⟨v1, h4, h⟩ := bind_ok h
  obtain ⟨v2, h5, h⟩ := bind_ok h
  obtain ⟨v3, h6, h⟩ := bind_ok h
  obtain ⟨v4, h7, h⟩ := bind_ok h
  obtain ⟨v5, h8, h⟩ := bind_ok h
  obtain ⟨v6, h9, h⟩ := bind_ok h
  obtain ⟨v7, h10, h⟩ := bind_ok h
  obtain ⟨v8, h11, h⟩ := bind_ok h
  obtain ⟨v9, h12, h⟩ := bind_ok h
  obtain ⟨v10, h13, h⟩ := bind_ok h
  obtain ⟨v11, h14, h⟩ := bind_ok h
  intro k hk
  simp only [requiredKeys, List.mem_cons, List.not_mem_nil, or_false] at hk
  rcases hk with rfl | rfl | rfl | rfl | rfl | rfl | rfl | rfl | rfl | rfl | rfl | rfl
  · exact get_ok_mem h4
  · exact get_ok_mem h5
  · exact get_ok_mem h6
  · exact get_ok_mem h7
  · exact get_ok_mem h8
  · exact get_ok_mem h9
  · exact get_ok_mem h10
  · exact get_ok_mem h11
  · exact get_ok_mem h12
  · exact get_ok_mem h13
  · exact get_ok_mem h1
  · exact get_ok_mem h14

/-- C3: a well-formed JSON object missing `license` — or any other required
field — makes `Package.parse` fail; no record with a default or partial
value is returned. -/
theorem parse_missing_required_fails (kvs : List (String × Json)) (k : String)
    (hk : k ∈ requiredKeys) (hmiss : k ∉ kvs.map Prod.fst) :
    exOk (Package.parse (.obj kvs)) = false := by
  cases hp : Package.parse (.obj kvs) with
  | error e => rfl
  | ok p => exact absurd (parse_ok_required_present hp k hk) hmiss

/-- C3, witness: the empty object is missing `license`, and parsing it
fails. -/
theorem parse_missing_required_fails_witness :
    exOk (Package.parse (.obj [])) = false :=
  parse_missing_required_fails [] "license" (by decide) (by decide)

/-- C7, amended: `Package.parse` succeeds exactly on documents carrying all
sixteen keys (with a parseable `created_at` string); the optional fields may
be bound to any value, `null` included, but may not be absent. -/
theorem parse_succeeds_with_all_keys (kvs : List (String × Json)) (s : String)
    (d : Datetime) (hca : lookupLast "created_at" kvs = some (.str s))
    (hd : Datetime.fromisoformat s = some d)
    (hkeys : ∀ k ∈ allKeys, k ∈ kvs.map Prod.fst) :
    exOk (Package.parse (.obj kvs)) = true := by
  obtain ⟨w1, hw1⟩ := mem_lookupLast (hkeys "name" (by decide))
  obtain ⟨w2, hw2⟩ := mem_lookupLast (hkeys "author" (by decide))
  obtain ⟨w3, hw3⟩ := mem_lookupLast (hkeys "title" (by decide))
  obtain ⟨w4, hw4⟩ := mem_lookupLast (hkeys "short_description" (by decide))
  obtain ⟨w5, hw5⟩ := mem_lookupLast (hkeys "long_description" (by decide))
  obtain ⟨w6, hw6⟩ := mem_lookupLast (hkeys "repo" (by decide))
  obtain ⟨w7, hw7⟩ := mem_lookupLast (hkeys "provides" (by decide))
  obtain ⟨w8, hw8⟩ := mem_lookupLast (hkeys "release" (by decide))
  obtain ⟨w9, hw9⟩ := mem_lookupLast (hkeys "score" (by decide))
  obtain ⟨w10, hw10⟩ := mem_lookupLast (hkeys "license" (by decide))
  obtain ⟨w11, hw11⟩ := mem_lookupLast (hkeys "maintainers" (by decide))
  obtain ⟨w12, hw12⟩ := mem_lookupLast (hkeys "website" (by decide))
  obtain ⟨w13, hw13⟩ := mem_lookupLast (hkeys "issue_tracker" (by decide))
  obtain ⟨w14, hw14⟩ := mem_lookupLast (hkeys "thumbnail" (by decide))
  obtain ⟨w15, hw15⟩ := mem_lookupLast (hkeys "screenshots" (by decide))
  simp [Package.parse, Json.get, hca, hw1, hw2, hw3, hw4, hw5, hw6, hw7, hw8,
    hw9, hw10, hw11, hw12, hw13, hw14, hw15, asStr, parseTimestamp, hd,
    Bind.bind, Except.bind, pure, Except.pure, exOk]

/-- C7, amended, witness: `sampleDoc` carries all sixteen keys with the four
optional fields bound to `null`, and parses successfully. -/
theorem parse_succeeds_with_all_keys_witness :
    exOk (Package.parse sampleDoc) = true :=
  parse_succeeds_with_all_keys _ "2018-05-14T13:57:01" sampleDatetime
    (by decide) (by decide) (by decide)

/-- C8: `find` agrees with dictionary lookup — it returns the item stored
under `(author, name)` when the key is present and `none` when absent, by a
pure lookup (the model is total: no exception, and `s` is untouched). -/
theorem find_lookup (s : Search) (author name : Json) :
    s.find author name = dlookup (author, name) s.items ∧
      (∀ it, dlookup (author, name) s.items = some it →
        s.find author name = some it) ∧
      (dlookup (author, name) s.items = none → s.find author name = none) := by
  have h : s.find author name = dlookup (author, name) s.items := by
    unfold Search.find
    cases hl : dlookup (author, name) s.items <;> simp [hl]
  exact ⟨h, fun it hit => h.trans hit, fun hn => h.trans hn⟩

/-- A concrete search item for the `find` witness. -/
def sampleItem : SearchItem :=
  ⟨minetest_contentdb, .str "Wuzzy", .str "basic_signs", .num 7, .str "Signs",
   .str "Basic Signs", .str "mod", .str "https://x/y.png"⟩

/-- A concrete search result for the `find` witness. -/
def sampleSearch : Search :=
  ⟨minetest_contentdb, [((.str "Wuzzy", .str "basic_signs"), sampleItem)]⟩

/-- C8, witness: on a concrete search result, `find` returns the stored item
for the present key and `none` for an absent key. -/
theorem find_lookup_witness :
    sampleSearch.find (.str "Wuzzy") (.str "basic_signs") = some sampleItem ∧
      sampleSearch.find (.str "nobody") (.str "nothing") = none :=
  ⟨(find_lookup sampleSearch (.str "Wuzzy") (.str "basic_signs")).2.1
      sampleItem (by decide),
   (find_lookup sampleSearch (.str "nobody") (.str "nothing")).2.2 (by decide)⟩

/-- C4, amended: `fetch` never consults the response status: two transports
delivering the same body under different status codes (2xx or not) give the
same result, namely `Package.parse` of that body.  When the body is a
complete package document the error response therefore yields an `.ok`
record; no transport-level error value exists in this code. -/
theorem fetch_status_independent (c : OnlineContent) (author name : String)
    (b : Json) (s1 s2 : Nat) :
    OnlineContent.fetch c (fun _ => ⟨s1, b⟩) author name =
        OnlineContent.fetch c (fun _ => ⟨s2, b⟩) author name ∧
      OnlineContent.fetch c (fun _ => ⟨s1, b⟩) author name = Package.parse b :=
  ⟨rfl, rfl⟩

/-! ## Helper lemmas on the search dictionary fold -/

/-- A successfully parsed search item carries the element's `author` and
`name` fields and the client reference passed to the parser. -/
theorem searchItem_parse_ok {cdb : OnlineContent} {e : Json} {it : SearchItem}
    (h : SearchItem.parse cdb e = .ok it) :
    e.get "author" = .ok it.author ∧ e.get "name" = .ok it.name ∧
      it.content_db = cdb := by
  unfold SearchItem.parse at h
  obtain ⟨a, ha, h⟩ := bind_ok h
  obtain ⟨n, hn, h⟩ := bind_ok h
  obtain ⟨r, hr, h⟩ := bind_ok h
  obtain ⟨sd, hsd, h⟩ := bind_ok h
  obtain ⟨t, ht, h⟩ := bind_ok h
  obtain ⟨pt, hpt, h⟩ := bind_ok h
  obtain ⟨tn, htn, h⟩ := bind_ok h
  simp only [pure, Except.pure, Except.ok.injEq] at h
  subst h
  exact ⟨ha, hn, rfl⟩

/-- Characterization of one successful iteration of the `Search.parse`
loop. -/
theorem parseStep_ok {cdb : OnlineContent}
    {acc acc' : List ((Json × Json) × SearchItem)} {e : Json}
    (h : parseStep cdb acc e = .ok acc') :
    ∃ it, SearchItem.parse cdb e = .ok it ∧
      keyOf e = .ok (it.author, it.name) ∧
      acc' = dinsert acc (it.author, it.name) it := by
  unfold parseStep at h
  obtain ⟨it, hit, h⟩ := bind_ok h
  obtain ⟨a, ha, h⟩ := bind_ok h
  obtain ⟨n, hn, h⟩ := bind_ok h
  simp only [pure, Except.pure, Except.ok.injEq] at h
  obtain ⟨hga, hgn, hcdb⟩ := searchItem_parse_ok hit
  rw [hga] at ha
  rw [hgn] at hn
  injection ha with ha
  injection hn with hn
  subst ha
  subst hn
  refine ⟨it, hit, ?_, h.symm⟩
  unfold keyOf
  rw [hga, hgn]
  rfl

/-- Looking up the freshly inserted key returns the freshly inserted
value. -/
theorem dlookup_dinsert_self (l : List ((Json × Json) × SearchItem))
    (k : Json × Json) (v : SearchItem) : dlookup k (dinsert l k v) = some v := by
  induction l with
  | nil => simp [dinsert, dlookup]
  | cons hd tl ih =>
    obtain ⟨k', v'⟩ := hd
    by_cases hk : k' = k
    · simp [dinsert, dlookup, hk]
    · simp [dinsert, dlookup, hk, ih]

/-- Inserting one key does not disturb lookups of other keys. -/
theorem dlookup_dinsert_other (l : List ((Json × Json) × SearchItem))
    (k k' : Json × Json) (v : SearchItem) (hne : k' ≠ k) :
    dlookup k' (dinsert l k v) = dlookup k' l := by
  have hne' : ¬k = k' := fun h => hne h.symm
  induction l with
  | nil => simp [dinsert, dlookup, hne']
  | cons hd tl ih =>
    obtain ⟨k'', v''⟩ := hd
    by_cases hk : k'' = k
    · subst hk
      simp [dinsert, dlookup, hne']
    · have hstep : dinsert ((k'', v'') :: tl) k v = (k'', v'') :: dinsert tl k v := by
        simp [dinsert, hk]
      rw [hstep]
      by_cases hk' : k'' = k'
      · simp [dlookup, hk']
      · simp [dlookup, hk', ih]

/-- Every entry of an insertion result is an old entry or the new binding. -/
theorem mem_dinsert {l : List ((Json × Json) × SearchItem)}
    {k : Json × Json} {v : SearchItem} {ent : (Json × Json) × SearchItem}
    (h : ent ∈ dinsert l k v) : ent ∈ l ∨ ent = (k, v) := by
  induction l with
  | nil => simpa [dinsert] using h
  | cons hd tl ih =>
    obtain ⟨k', v'⟩ := hd
    by_cases hk : k' = k
    · rw [hk] at h
      simp only [dinsert, if_true, eq_self_iff_true, List.mem_cons] at h
      rw [List.mem_cons]
      rcases h with h | h
      · exact .inr h
      · exact .inl (.inr h)
    · simp only [dinsert, if_neg hk, List.mem_cons] at h
      rw [List.mem_cons]
      rcases h with h | h
      · exact .inl (.inl h)
      · rcases ih h with h' | h'
        · exact .inl (.inr h')
        · exact .inr h'

/-- Keys after an insertion are the old keys possibly extended by the
inserted key. -/
theorem mem_keys_dinsert {l : List ((Json × Json) × SearchItem)}
    {k x : Json × Json} {v : SearchItem}
    (h : x ∈ (dinsert l k v).map Prod.fst) : x ∈ l.map Prod.fst ∨ x = k := by
  rw [List.mem_map] at h
  obtain ⟨ent, hent, hx⟩ := h
  rcases mem_dinsert hent with h' | h'
  · exact .inl (hx ▸ List.mem_map_of_mem Prod.fst h')
  · subst h'
    exact .inr hx.symm

/-- Insertion preserves distinctness of the stored keys. -/
theorem dinsert_keys_nodup {l : List ((Json × Json) × SearchItem)}
    {k : Json × Json} {v : SearchItem} (h : (l.map Prod.fst).Nodup) :
    ((dinsert l k v).map Prod.fst).Nodup := by
  induction l with
  | nil => simp [dinsert]
  | cons hd tl ih =>
    obtain ⟨k', v'⟩ := hd
    simp only [List.map_cons, List.nodup_cons] at h
    by_cases hk : k' = k
    · subst hk
      simpa [dinsert, List.nodup_cons] using h
    · simp only [dinsert, if_neg hk, List.map_cons, List.nodup_cons]
      refine ⟨fun hmem => ?_, ih h.2⟩
      rcases mem_keys_dinsert hmem with h' | h'
      · exact h.1 h'
      · exact hk h'

/-- With distinct keys, a successful lookup pins down the filtered entry
list for that key. -/
theorem filter_eq_of_nodup_dlookup {l : List ((Json × Json) × SearchItem)}
    {k : Json × Json} {v : SearchItem} (hnd : (l.map Prod.fst).Nodup)
    (h : dlookup k l = some v) :
    l.filter (fun ent => ent.1 = k) = [(k, v)] := by
  induction l with
  | nil => simp [dlookup] at h
  | cons hd tl ih =>
    obtain ⟨k', v'⟩ := hd
    simp only [List.map_cons, List.nodup_cons] at hnd
    by_cases hk : k' = k
    · have hv : v' = v := by
        rw [hk] at h
        simpa [dlookup] using h
      have htl : tl.filter (fun ent => decide (ent.1 = k)) = [] := by
        rw [List.filter_eq_nil_iff]
        intro ent hent
        simp only [decide_eq_true_eq]
        intro heq
        exact hnd.1 (by rw [hk]; exact heq ▸ List.mem_map_of_mem Prod.fst hent)
      rw [List.filter_cons, if_pos (by simp [hk]), htl, hk, hv]
    · simp only [dlookup, if_neg hk] at h
      simpa [List.filter_cons, hk] using ih hnd.2 h

/-- A successful search fold keeps the stored keys distinct. -/
theorem fold_keys_nodup {cdb : OnlineContent} :
    ∀ (l : List Json) (acc items : List ((Json × Json) × SearchItem)),
      l.foldlM (parseStep cdb) acc = .ok items →
      (acc.map Prod.fst).Nodup → (items.map Prod.fst).Nodup := by
  intro l
  induction l with
  | nil =>
    intro acc items h hnd
    simp only [List.foldlM_nil, pure, Except.pure, Except.ok.injEq] at h
    exact h ▸ hnd
  | cons e l ih =>
    intro acc items h hnd
    rw [List.foldlM_cons] at h
    obtain ⟨acc', hstep, hrest⟩ := bind_ok h
    obtain ⟨it, hit, hkey, hacc'⟩ := parseStep_ok hstep
    exact ih acc' items hrest (hacc' ▸ dinsert_keys_nodup hnd)

/-- After a successful search fold, looking up a key returns the item of the
last array element carrying that key, or falls back to the accumulator. -/
theorem fold_dlookup {cdb : OnlineContent} :
    ∀ (l : List Json) (acc items : List ((Json × Json) × SearchItem)),
      l.foldlM (parseStep cdb) acc = .ok items →
      ∀ k : Json × Json,
        dlookup k items =
          match lastWithKey k l with
          | some e =>
            match SearchItem.parse cdb e with
            | .ok it => some it
            | .error _ => none
          | none => dlookup k acc := by
  intro l
  induction l with
  | nil =>
    intro acc items h k
    simp only [List.foldlM_nil, pure, Except.pure, Except.ok.injEq] at h
    subst h
    rfl
  | cons e l ih =>
    intro acc items h k
    rw [List.foldlM_cons] at h
    obtain ⟨acc', hstep, hrest⟩ := bind_ok h
    obtain ⟨it, hit, hkey, hacc'⟩ := parseStep_ok hstep
    subst hacc'
    have := ih _ items hrest k
    cases hlast : lastWithKey k l with
    | some e' =>
      rw [hlast] at this
      simpa [lastWithKey, hlast] using this
    | none =>
      rw [hlast] at this
      rw [this]
      simp only [lastWithKey, hlast]
      by_cases hk : keyOf e = Except.ok k
      · rw [hkey] at hk
        injection hk with hk
        rw [if_pos (hkey.trans (congrArg Except.ok hk))]
        rw [hk] at hkey ⊢
        simp [hit, dlookup_dinsert_self]
      · rw [if_neg hk]
        have hne : (it.author, it.name) ≠ k := by
          intro heq
          exact hk (hkey.trans (congrArg Except.ok heq))
        exact dlookup_dinsert_other _ _ _ _ (fun hkk => hne hkk.symm)

/-- A search fold over elements that all parse successfully succeeds. -/
theorem fold_ok {cdb : OnlineContent} :
    ∀ (l : List Json) (acc : List ((Json × Json) × SearchItem)),
      (∀ e ∈ l, exOk (SearchItem.parse cdb e) = true) →
      ∃ items, l.foldlM (parseStep cdb) acc = .ok items := by
  intro l
  induction l with
  | nil => exact fun acc _ => ⟨acc, rfl⟩
  | cons e l ih =>
    intro acc hall
    have he := hall e (List.mem_cons_self _ _)
    cases hit : SearchItem.parse cdb e with
    | error err => rw [hit] at he; simp [exOk] at he
    | ok it =>
      obtain ⟨hga, hgn, _⟩ := searchItem_parse_ok hit
      have hstep : parseStep cdb acc e = .ok (dinsert acc (it.author, it.name) it) := by
        unfold parseStep
        rw [hit, hga, hgn]
        rfl
      obtain ⟨items, hi⟩ :=
        ih (dinsert acc (it.author, it.name) it)
          (fun e' he' => hall e' (List.mem_cons_of_mem _ he'))
      exact ⟨items, by rw [List.foldlM_cons, hstep]; exact hi⟩

/-- `lastWithKey` over an append prefers a match in the second part. -/
theorem lastWithKey_append (k : Json × Json) (xs ys : List Json) :
    lastWithKey k (xs ++ ys) =
      match lastWithKey k ys with
      | some e => some e
      | none => lastWithKey k xs := by
  induction xs with
  | nil =>
    simp only [List.nil_append]
    cases lastWithKey k ys <;> rfl
  | cons x xs ih =>
    simp only [List.cons_append, lastWithKey, List.append_eq]
    rw [ih]
    cases lastWithKey k ys <;> rfl

/-- A list without the key has no last element with it. -/
theorem lastWithKey_none (k : Json × Json) (l : List Json)
    (h : ∀ e ∈ l, keyOf e ≠ .ok k) : lastWithKey k l = none := by
  induction l with
  | nil => rfl
  | cons e l ih =>
    have he := h e (List.mem_cons_self _ _)
    rw [lastWithKey, ih (fun e' he' => h e' (List.mem_cons_of_mem _ he'))]
    simp [he]

/-- C5: an array holding two elements with the same `(author, name)` pair
(and no third one) parses without error into a result whose mapping holds
exactly one entry under that key, namely the item parsed from the later
element — last write wins. -/
theorem search_parse_duplicate (cdb : OnlineContent) (l1 l2 l3 : List Json)
    (e1 e2 a n : Json) (it1 it2 : SearchItem)
    (h1 : SearchItem.parse cdb e1 = .ok it1)
    (h2 : SearchItem.parse cdb e2 = .ok it2)
    (hk1 : keyOf e1 = .ok (a, n)) (hk2 : keyOf e2 = .ok (a, n))
    (hothers : ∀ e, e ∈ l1 ∨ e ∈ l2 ∨ e ∈ l3 →
      exOk (SearchItem.parse cdb e) = true ∧ keyOf e ≠ .ok (a, n)) :
    exOk (Search.parse cdb (.arr (l1 ++ e1 :: l2 ++ e2 :: l3))) = true ∧
      ∀ s, Search.parse cdb (.arr (l1 ++ e1 :: l2 ++ e2 :: l3)) = .ok s →
        dlookup (a, n) s.items = some it2 ∧
          s.items.filter (fun ent => ent.1 = (a, n)) = [((a, n), it2)] := by
  have hall : ∀ e ∈ l1 ++ e1 :: l2 ++ e2 :: l3,
      exOk (SearchItem.parse cdb e) = true := by
    intro e he
    simp only [List.mem_append, List.mem_cons] at he
    rcases he with (he | he | he) | he | he
    · exact (hothers e (.inl he)).1
    · rw [he, h1]; rfl
    · exact (hothers e (.inr (.inl he))).1
    · rw [he, h2]; rfl
    · exact (hothers e (.inr (.inr he))).1
  have hlast : lastWithKey (a, n) (l1 ++ e1 :: l2 ++ e2 :: l3) = some e2 := by
    have h3 : lastWithKey (a, n) l3 = none :=
      lastWithKey_none _ _ (fun e he => (hothers e (.inr (.inr he))).2)
    have h23 : lastWithKey (a, n) (e2 :: l3) = some e2 := by
      simp only [lastWithKey]
      rw [h3]
      simp [hk2]
    rw [lastWithKey_append, h23]
  constructor
  · obtain ⟨items, hfold⟩ := fold_ok (l1 ++ e1 :: l2 ++ e2 :: l3) [] hall
    have hp : Search.parse cdb (.arr (l1 ++ e1 :: l2 ++ e2 :: l3)) =
        .ok ⟨cdb, items⟩ := by
      simp only [Search.parse]
      rw [hfold]
      rfl
    rw [hp]
    rfl
  · intro s hs
    simp only [Search.parse] at hs
    obtain ⟨items, hfold, hs⟩ := bind_ok hs
    simp only [pure, Except.pure, Except.ok.injEq] at hs
    subst hs
    have hdl := fold_dlookup _ _ _ hfold (a, n)
    rw [hlast] at hdl
    simp only [h2] at hdl
    have hnd : ((items : List ((Json × Json) × SearchItem)).map Prod.fst).Nodup :=
      fold_keys_nodup _ _ _ hfold (by simp)
    exact ⟨hdl, filter_eq_of_nodup_dlookup hnd hdl⟩

/-- The earlier of the two duplicate-key search elements of the witness. -/
def sampleSearchDoc1 : Json := .obj
  [("author", .str "Wuzzy"), ("name", .str "basic_signs"), ("release", .num 6),
   ("short_description", .str "Old"), ("title", .str "Old Signs"),
   ("package_type", .str "mod"), ("thumbnail", .str "https://x/old.png")]

/-- The later of the two duplicate-key search elements of the witness; its
fields are those of `sampleItem`. -/
def sampleSearchDoc2 : Json := .obj
  [("author", .str "Wuzzy"), ("name", .str "basic_signs"), ("release", .num 7),
   ("short_description", .str "Signs"), ("title", .str "Basic Signs"),
   ("package_type", .str "mod"), ("thumbnail", .str "https://x/y.png")]

/-- The item parsed from `sampleSearchDoc1`. -/
def sampleItem1 : SearchItem :=
  ⟨minetest_contentdb, .str "Wuzzy", .str "basic_signs", .num 6, .str "Old",
   .str "Old Signs", .str "mod", .str "https://x/old.png"⟩

/-- C5, witness: parsing the two-element duplicate-key array succeeds and the
result holds exactly the later item under the shared key. -/
theorem search_parse_duplicate_witness :
    exOk (Search.parse minetest_contentdb
        (.arr [sampleSearchDoc1, sampleSearchDoc2])) = true ∧
      dlookup (.str "Wuzzy", .str "basic_signs") sampleSearch.items =
        some sampleItem ∧
      sampleSearch.items.filter
          (fun ent => ent.1 = (.str "Wuzzy", .str "basic_signs")) =
        [((.str "Wuzzy", .str "basic_signs"), sampleItem)] := by
  have h := search_parse_duplicate minetest_contentdb [] [] []
    sampleSearchDoc1 sampleSearchDoc2 (.str "Wuzzy") (.str "basic_signs")
    sampleItem1 sampleItem (by decide) (by decide) (by decide) (by decide)
    (by
      intro e he
      rcases he with he | he | he <;> exact absurd he (List.not_mem_nil e))
  have h2 := h.2 sampleSearch (by decide)
  exact ⟨h.1, h2.1, h2.2⟩

/-- A successful search fold only stores entries whose key matches the
item's own fields and whose item references the parsing client. -/
theorem fold_entry_prop {cdb : OnlineContent} :
    ∀ (l : List Json) (acc items : List ((Json × Json) × SearchItem)),
      l.foldlM (parseStep cdb) acc = .ok items →
      (∀ ent ∈ acc, ent.1 = (ent.2.author, ent.2.name) ∧
        ent.2.content_db = cdb) →
      ∀ ent ∈ items, ent.1 = (ent.2.author, ent.2.name) ∧
        ent.2.content_db = cdb := by
  intro l
  induction l with
  | nil =>
    intro acc items h hacc
    simp only [List.foldlM_nil, pure, Except.pure, Except.ok.injEq] at h
    exact h ▸ hacc
  | cons e l ih =>
    intro acc items h hacc
    rw [List.foldlM_cons] at h
    obtain ⟨acc', hstep, hrest⟩ := bind_ok h
    obtain ⟨it, hit, hkey, hacc'⟩ := parseStep_ok hstep
    refine ih acc' items hrest ?_
    subst hacc'
    intro ent hent
    rcases mem_dinsert hent with h' | h'
    · exact hacc ent h'
    · subst h'
      exact ⟨rfl, (searchItem_parse_ok hit).2.2⟩

/-- C10: every entry of a parsed search result is self-consistent — the key
equals the stored item's own `(author, name)` fields and the item's client
reference is the client passed to `parse` — so `item.fetch()` performs
exactly `client.fetch(item.author, item.name)`. -/
theorem search_parse_entry_invariant (cdb : OnlineContent) (doc : Json)
    (s : Search) (h : Search.parse cdb doc = .ok s) :
    ∀ k it, (k, it) ∈ s.items →
      k = (it.author, it.name) ∧ it.content_db = cdb ∧
        ∀ (http : String → HttpResponse) (a b : String),
          it.author = .str a → it.name = .str b →
          it.fetch http = cdb.fetch http a b := by
  cases doc with
  | arr l =>
    simp only [Search.parse] at h
    obtain ⟨items, hfold, hs⟩ := bind_ok h
    simp only [pure, Except.pure, Except.ok.injEq] at hs
    subst hs
    intro k it hent
    obtain ⟨hkey, hcdb⟩ := fold_entry_prop l [] items hfold (by simp) (k, it) hent
    refine ⟨hkey, hcdb, ?_⟩
    intro http a b ha hb
    rw [SearchItem.fetch, ha, hb, hcdb]
  | null => exact absurd h (by simp [Search.parse])
  | bool b => exact absurd h (by simp [Search.parse])
  | num m => exact absurd h (by simp [Search.parse])
  | str st => exact absurd h (by simp [Search.parse])
  | obj kvs => exact absurd h (by simp [Search.parse])

/-- C10, witness: the invariant instantiated on a concrete one-element parse:
the stored key equals the item's fields, the client reference is the parsing
client, and `fetch` delegates to it. -/
theorem search_parse_entry_invariant_witness :
    (Json.str "Wuzzy", Json.str "basic_signs") =
        (sampleItem.author, sampleItem.name) ∧
      sampleItem.content_db = minetest_contentdb ∧
      sampleItem.fetch http404 =
        minetest_contentdb.fetch http404 "Wuzzy" "basic_signs" := by
  have h := search_parse_entry_invariant minetest_contentdb
    (.arr [sampleSearchDoc2]) sampleSearch (by decide)
    (.str "Wuzzy", .str "basic_signs") sampleItem (by decide)
  exact ⟨h.1, h.2.1, h.2.2 http404 "Wuzzy" "basic_signs" rfl rfl⟩

/-! ## Helper lemmas on `quote` -/

/-- Every Unicode code point is below `0x110000`. -/
theorem char_toNat_lt (c : Char) : c.toNat < 1114112 := by
  have h := c.valid
  simp only [Char.toNat]
  rcases h with h | h
  · omega
  · omega

/-- UTF-8 encoding produces bytes. -/
theorem utf8Bytes_lt (c : Char) : ∀ b ∈ utf8Bytes c, b < 256 := by
  intro b hb
  have hc := char_toNat_lt c
  simp only [utf8Bytes] at hb
  by_cases h1 : c.toNat < 128
  · simp [h1] at hb
    omega
  · by_cases h2 : c.toNat < 2048
    · simp [h1, h2] at hb
      rcases hb with rfl | rfl <;> omega
    · by_cases h3 : c.toNat < 65536
      · simp [h1, h2, h3] at hb
        rcases hb with rfl | rfl | rfl <;> omega
      · simp [h1, h2, h3] at hb
        rcases hb with rfl | rfl | rfl | rfl <;> omega

set_option maxRecDepth 4096 in
/-- No character emitted for a byte by `quote` is `?`, `#` or a space. -/
theorem quoteByte_no_reserved :
    ∀ b : Nat, b < 256 → ∀ ch ∈ quoteByte b, ch ≠ '?' ∧ ch ≠ '#' ∧ ch ≠ ' ' := by
  decide

/-- No character of a quoted string is `?`, `#` or a space. -/
theorem quote_no_reserved (s : String) :
    ∀ ch ∈ (quote s).data, ch ≠ '?' ∧ ch ≠ '#' ∧ ch ≠ ' ' := by
  intro ch hch
  simp only [quote, List.mem_flatMap] at hch
  obtain ⟨c, hc, b, hb, hchb⟩ := hch
  exact quoteByte_no_reserved b (utf8Bytes_lt c b hb) ch hchb

/-- No character of the slash-joined quoted components is `?`, `#` or a
space. -/
theorem joinComponents_no_reserved (comps : List String) :
    ∀ ch ∈ (joinComponents (comps.map quote)).data,
      ch ≠ '?' ∧ ch ≠ '#' ∧ ch ≠ ' ' := by
  induction comps with
  | nil => intro ch hch; simp [joinComponents] at hch
  | cons x xs ih =>
    intro ch hch
    cases xs with
    | nil =>
      simp only [List.map_cons, List.map_nil, joinComponents] at hch
      exact quote_no_reserved x ch hch
    | cons y ys =>
      simp only [List.map_cons, joinComponents, String.data_append,
        List.mem_append] at hch
      rcases hch with (hch | hch) | hch
      · exact quote_no_reserved x ch hch
      · simp only [List.mem_singleton, show ("/" : String).data = ['/'] from rfl,
          List.mem_cons, List.not_mem_nil, or_false] at hch
        subst hch
        exact ⟨by decide, by decide, by decide⟩
      · exact ih ch (by simpa [joinComponents] using hch)

/-- `quote` distributes over concatenation (it is characterwise). -/
theorem quote_append (s t : String) : quote (s ++ t) = quote s ++ quote t := by
  apply String.ext
  simp [quote, String.data_append, List.flatMap_append]

/-- C2, amended: `make_url` percent-encodes each component independently with
`quote` and its default `safe='/'` and resolves the `/`-joined result against
the base address; `?`, `#` and spaces inside a component never reach the URL
as structural characters, but a slash inside a component survives unescaped
and does act as a path separator (see the counterexample). -/
theorem make_url_amended (base : String) (comps : List String) :
    OnlineContent.make_url ⟨base⟩ comps =
        urljoin base (joinComponents (comps.map quote)) ∧
      ∀ ch ∈ (joinComponents (comps.map quote)).data,
        ch ≠ '?' ∧ ch ≠ '#' ∧ ch ≠ ' ' :=
  ⟨rfl, joinComponents_no_reserved comps⟩

/-- C2, amended, witness: a concrete two-component URL, with the reserved
characters checked on the joined encoding. -/
theorem make_url_amended_witness :
    OnlineContent.make_url ⟨"https://content.minetest.net"⟩ ["api/packages", "?q=foo"] =
        urljoin "https://content.minetest.net"
          (joinComponents (["api/packages", "?q=foo"].map quote)) ∧
      '?' ∉ (joinComponents (["api/packages", "?q=foo"].map quote)).data :=
  ⟨(make_url_amended "https://content.minetest.net" ["api/packages", "?q=foo"]).1,
   fun h =>
    ((make_url_amended "https://content.minetest.net" ["api/packages", "?q=foo"]).2
      '?' h).1 rfl⟩

/-- C1, amended: `search_url` hands `make_url` the single component
`"api/packages?q=" + query` (the source's two adjacent string literals
concatenate), so for every base address the result resolves the single
percent-encoded segment `api/packages%3Fq%3D` followed by the encoded query
against the base: the `?` is percent-encoded as a literal path character, and
no `/` separates `api/packages` from the query part. -/
theorem search_url_amended (base query : String) :
    OnlineContent.search_url ⟨base⟩ query =
      urljoin base ("api/packages%3Fq%3D" ++ quote query) := by
  unfold OnlineContent.search_url OnlineContent.make_url
  show urljoin base (joinComponents [quote ("api/packages?q=" ++ query)]) = _
  rw [show joinComponents [quote ("api/packages?q=" ++ query)] =
      quote ("api/packages?q=" ++ query) from rfl]
  rw [quote_append]
  rw [show quote "api/packages?q=" = "api/packages%3Fq%3D" from by decide]

/-! ## Helper lemmas on ISO-8601 parsing and formatting -/

/-- Parsing a digit character recovers the digit. -/
theorem parseDigit_digitChar : ∀ k, k < 10 → parseDigit (Nat.digitChar k) = some k := by
  decide

/-- Parsing the two-digit rendering recovers the value. -/
theorem parse2_pad2 (n : Nat) (h : n < 100) :
    parse2 (Nat.digitChar (n / 10 % 10)) (Nat.digitChar (n % 10)) = some n := by
  have h1 := parseDigit_digitChar (n / 10 % 10) (by omega)
  have h2 := parseDigit_digitChar (n % 10) (by omega)
  simp only [parse2, h1, h2]
  congr 1
  omega

/-- Parsing the four-digit rendering recovers the value. -/
theorem parse4_pad4 (y : Nat) (h : y < 10000) :
    parse4 (Nat.digitChar (y / 100 / 10 % 10)) (Nat.digitChar (y / 100 % 10))
      (Nat.digitChar (y % 100 / 10 % 10)) (Nat.digitChar (y % 100 % 10)) = some y := by
  have h1 := parse2_pad2 (y / 100) (by omega)
  have h2 := parse2_pad2 (y % 100) (by omega)
  simp only [parse4, h1, h2]
  congr 1
  omega

/-- Parsing the first three digits of the six-digit rendering yields the
thousands. -/
theorem parse3_pad6_hi (μ : Nat) (h : μ < 1000000) :
    parse3 (Nat.digitChar (μ / 10000 / 10 % 10)) (Nat.digitChar (μ / 10000 % 10))
      (Nat.digitChar (μ / 100 % 100 / 10 % 10)) = some (μ / 1000) := by
  have h1 := parseDigit_digitChar (μ / 10000 / 10 % 10) (by omega)
  have h2 := parseDigit_digitChar (μ / 10000 % 10) (by omega)
  have h3 := parseDigit_digitChar (μ / 100 % 100 / 10 % 10) (by omega)
  simp only [parse3, h1, h2, h3]
  congr 1
  omega

/-- Parsing the last three digits of the six-digit rendering yields the
remainder below one thousand. -/
theorem parse3_pad6_lo (μ : Nat) :
    parse3 (Nat.digitChar (μ / 100 % 100 % 10)) (Nat.digitChar (μ % 100 / 10 % 10))
      (Nat.digitChar (μ % 100 % 10)) = some (μ % 1000) := by
  have h1 := parseDigit_digitChar (μ / 100 % 100 % 10) (by omega)
  have h2 := parseDigit_digitChar (μ % 100 / 10 % 10) (by omega)
  have h3 := parseDigit_digitChar (μ % 100 % 10) (by omega)
  simp only [parse3, h1, h2, h3]
  congr 1
  omega

/-- Parsing the formatted date fragment recovers year, month and day. -/
theorem parseIsoDate_format (y mo dy : Nat) (hy : y < 10000) (hmo : mo < 100)
    (hdy : dy < 100) :
    parseIsoDate (pad4 y ++ '-' :: pad2 mo ++ '-' :: pad2 dy) = some (y, mo, dy) := by
  simp only [pad4, pad2, List.cons_append, List.nil_append, List.append_assoc]
  simp only [parseIsoDate, parse4_pad4 y hy, parse2_pad2 mo hmo,
    parse2_pad2 dy hdy]
  simp

/-- A list avoiding a character splits to `none` at it. -/
theorem splitFirst_not_mem {p : Char} {l : List Char} (h : ∀ c ∈ l, c ≠ p) :
    splitFirst p l = none := by
  induction l with
  | nil => rfl
  | cons c rest ih =>
    have hc := h c (List.mem_cons_self _ _)
    simp only [splitFirst, if_neg hc,
      ih (fun c' hc' => h c' (List.mem_cons_of_mem _ hc'))]

/-- Splitting at the first occurrence of a character, placed after a prefix
avoiding it, returns the prefix and the suffix. -/
theorem splitFirst_append {p : Char} {r : List Char} :
    ∀ {l : List Char}, (∀ c ∈ l, c ≠ p) → splitFirst p (l ++ p :: r) = some (l, r) := by
  intro l
  induction l with
  | nil => intro _; simp [splitFirst]
  | cons c rest ih =>
    intro h
    have hc := h c (List.mem_cons_self _ _)
    simp only [List.cons_append, splitFirst, if_neg hc, List.append_eq,
      ih (fun c' hc' => h c' (List.mem_cons_of_mem _ hc'))]

/-- Digit characters are not sign characters. -/
theorem digitChar_no_sign : ∀ k, k < 10 →
    Nat.digitChar k ≠ '-' ∧ Nat.digitChar k ≠ '+' := by
  decide

/-- Two-digit renderings contain no sign characters. -/
theorem pad2_no_sign (x : Nat) : ∀ c ∈ pad2 x, c ≠ '-' ∧ c ≠ '+' := by
  intro c hc
  simp only [pad2, List.mem_cons, List.not_mem_nil, or_false] at hc
  rcases hc with rfl | rfl
  · exact digitChar_no_sign _ (by omega)
  · exact digitChar_no_sign _ (by omega)

/-- Six-digit renderings contain no sign characters. -/
theorem pad6_no_sign (x : Nat) : ∀ c ∈ pad6 x, c ≠ '-' ∧ c ≠ '+' := by
  intro c hc
  simp only [pad6, List.mem_append] at hc
  rcases hc with (hc | hc) | hc <;> exact pad2_no_sign _ c hc

/-- The formatted time-of-day fragment contains no sign characters. -/
theorem timeChars_no_sign (hh mi se μ : Nat) :
    ∀ c ∈ pad2 hh ++ ':' :: pad2 mi ++ ':' :: pad2 se ++
      (if μ ≠ 0 then '.' :: pad6 μ else []), c ≠ '-' ∧ c ≠ '+' := by
  intro c hc
  by_cases h0 : μ ≠ 0
  · rw [if_pos h0] at hc
    simp only [pad2, pad6, List.mem_append, List.mem_cons, List.not_mem_nil,
      or_false, or_assoc] at hc
    rcases hc with rfl | rfl | rfl | rfl | rfl | rfl | rfl | rfl | rfl | rfl |
      rfl | rfl | rfl | rfl | rfl <;>
      first
      | exact digitChar_no_sign _ (by omega)
      | exact ⟨by decide, by decide⟩
  · rw [if_neg h0] at hc
    simp only [pad2, List.mem_append, List.mem_cons, List.append_nil,
      List.not_mem_nil, or_false, or_assoc] at hc
    rcases hc with rfl | rfl | rfl | rfl | rfl | rfl | rfl | rfl <;>
      first
      | exact digitChar_no_sign _ (by omega)
      | exact ⟨by decide, by decide⟩

/-- The formatted offset tail (behind the sign) contains no sign
characters. -/
theorem offsetChars_no_sign (hh mm ss uu : Nat) :
    ∀ c ∈ pad2 hh ++ ':' :: pad2 mm ++
      (if ss ≠ 0 ∨ uu ≠ 0 then
        ':' :: pad2 ss ++ (if uu ≠ 0 then '.' :: pad6 uu else [])
      else []), c ≠ '-' ∧ c ≠ '+' := by
  intro c hc
  by_cases hu : uu ≠ 0
  · rw [if_pos (.inr hu), if_pos hu] at hc
    simp only [pad2, pad6, List.mem_append, List.mem_cons, List.not_mem_nil,
      or_false, or_assoc] at hc
    rcases hc with rfl | rfl | rfl | rfl | rfl | rfl | rfl | rfl | rfl | rfl |
      rfl | rfl | rfl | rfl | rfl <;>
      first
      | exact digitChar_no_sign _ (by omega)
      | exact ⟨by decide, by decide⟩
  · by_cases hs0 : ss ≠ 0
    · rw [if_pos (.inl hs0), if_neg hu, List.append_nil] at hc
      simp only [pad2, List.mem_append, List.mem_cons, List.not_mem_nil,
        or_false, or_assoc] at hc
      rcases hc with rfl | rfl | rfl | rfl | rfl | rfl | rfl | rfl <;>
        first
        | exact digitChar_no_sign _ (by omega)
        | exact ⟨by decide, by decide⟩
    · rw [if_neg (by simp [hu, hs0]), List.append_nil] at hc
      simp only [pad2, List.mem_append, List.mem_cons, List.not_mem_nil,
        or_false, or_assoc] at hc
      rcases hc with rfl | rfl | rfl | rfl | rfl <;>
        first
        | exact digitChar_no_sign _ (by omega)
        | exact ⟨by decide, by decide⟩

/-- Parsing the formatted time-of-day fragment recovers its components. -/
theorem parseHMSF_format (h m s μ : Nat) (hh : h < 100) (hm : m < 100)
    (hs : s < 100) (hμ : μ < 1000000) :
    parseHMSF (pad2 h ++ ':' :: pad2 m ++ ':' :: pad2 s ++
      (if μ ≠ 0 then '.' :: pad6 μ else [])) = some (h, m, s, μ) := by
  by_cases h0 : μ ≠ 0
  · rw [if_pos h0]
    simp only [pad2, pad6, List.cons_append, List.nil_append, List.append_assoc]
    simp only [parseHMSF, parse2_pad2 h hh, parse2_pad2 m hm, parse2_pad2 s hs,
      parse3_pad6_hi μ hμ, parse3_pad6_lo μ]
    show some (h, m, s, 1000 * (μ / 1000) + μ % 1000) = some (h, m, s, μ)
    have hμ' : 1000 * (μ / 1000) + μ % 1000 = μ := by omega
    rw [hμ']
  · rw [if_neg h0, List.append_nil]
    have h0' : μ = 0 := by omega
    subst h0'
    simp only [pad2, List.cons_append, List.nil_append, List.append_assoc]
    simp only [parseHMSF, parse2_pad2 h hh, parse2_pad2 m hm, parse2_pad2 s hs]
    rfl

/-- Parsing the formatted offset tail recovers its components. -/
theorem parseHMSF_offset (hh mm ss uu : Nat) (h1 : hh < 100) (h2 : mm < 100)
    (h3 : ss < 100) (h4 : uu < 1000000) :
    parseHMSF (pad2 hh ++ ':' :: pad2 mm ++
      (if ss ≠ 0 ∨ uu ≠ 0 then
        ':' :: pad2 ss ++ (if uu ≠ 0 then '.' :: pad6 uu else [])
      else [])) = some (hh, mm, ss, uu) := by
  by_cases hu : uu ≠ 0
  · rw [if_pos (.inr hu), if_pos hu]
    simp only [pad2, pad6, List.cons_append, List.nil_append, List.append_assoc]
    simp only [parseHMSF, parse2_pad2 hh h1, parse2_pad2 mm h2, parse2_pad2 ss h3,
      parse3_pad6_hi uu h4, parse3_pad6_lo uu]
    show some (hh, mm, ss, 1000 * (uu / 1000) + uu % 1000) = some (hh, mm, ss, uu)
    have huu : 1000 * (uu / 1000) + uu % 1000 = uu := by omega
    rw [huu]
  · by_cases hs0 : ss ≠ 0
    · rw [if_pos (.inl hs0), if_neg hu, List.append_nil]
      have hu' : uu = 0 := by omega
      subst hu'
      simp only [pad2, List.cons_append, List.nil_append, List.append_assoc]
      simp only [parseHMSF, parse2_pad2 hh h1, parse2_pad2 mm h2,
        parse2_pad2 ss h3]
      rfl
    · rw [if_neg (by simp [hu, hs0]), List.append_nil]
      have hu' : uu = 0 := by omega
      have hs' : ss = 0 := by omega
      subst hu'
      subst hs'
      simp only [pad2, List.cons_append, List.nil_append, List.append_assoc]
      simp only [parseHMSF, parse2_pad2 hh h1, parse2_pad2 mm h2]
      rfl

/-- Length of the formatted offset tail: 5, 8 or 15 characters. -/
theorem offsetChars_length (hh mm ss uu : Nat) :
    (pad2 hh ++ ':' :: pad2 mm ++
      (if ss ≠ 0 ∨ uu ≠ 0 then
        ':' :: pad2 ss ++ (if uu ≠ 0 then '.' :: pad6 uu else [])
      else [])).length = 5 ∨
    (pad2 hh ++ ':' :: pad2 mm ++
      (if ss ≠ 0 ∨ uu ≠ 0 then
        ':' :: pad2 ss ++ (if uu ≠ 0 then '.' :: pad6 uu else [])
      else [])).length = 8 ∨
    (pad2 hh ++ ':' :: pad2 mm ++
      (if ss ≠ 0 ∨ uu ≠ 0 then
        ':' :: pad2 ss ++ (if uu ≠ 0 then '.' :: pad6 uu else [])
      else [])).length = 15 := by
  by_cases hu : uu ≠ 0
  · rw [if_pos (.inr hu), if_pos hu]
    right; right
    simp [pad2, pad6]
  · by_cases hs0 : ss ≠ 0
    · rw [if_pos (.inl hs0), if_neg hu]
      right; left
      simp [pad2]
    · rw [if_neg (by simp [hu, hs0])]
      left
      simp [pad2]

/-- Parsing the formatted time string (time of day plus optional offset)
recovers all components including the offset. -/
theorem parseIsoTime_format (hh mi se μ : Nat) (tz : Option Int)
    (h1 : hh < 100) (h2 : mi < 100) (h3 : se < 100) (h4 : μ < 1000000)
    (h5 : ∀ off, tz = some off → off.natAbs < 86400000000) :
    parseIsoTime (pad2 hh ++ ':' :: pad2 mi ++ ':' :: pad2 se ++
      (if μ ≠ 0 then '.' :: pad6 μ else []) ++ formatOffset tz) =
      some (hh, mi, se, μ, tz) := by
  cases tz with
  | none =>
    rw [show formatOffset none = [] from rfl, List.append_nil]
    unfold parseIsoTime
    rw [show splitSign (pad2 hh ++ ':' :: pad2 mi ++ ':' :: pad2 se ++
        (if μ ≠ 0 then '.' :: pad6 μ else [])) = none from by
      unfold splitSign
      rw [splitFirst_not_mem (fun c hc => (timeChars_no_sign hh mi se μ c hc).1),
        splitFirst_not_mem (fun c hc => (timeChars_no_sign hh mi se μ c hc).2)]]
    rw [parseHMSF_format hh mi se μ h1 h2 h3 h4]
  | some off =>
    have hoff : off.natAbs < 86400000000 := h5 off rfl
    have hfo : formatOffset (some off) =
        (if off < 0 then '-' else '+') ::
          (pad2 (off.natAbs / 3600000000) ++ ':' ::
            pad2 (off.natAbs / 60000000 % 60) ++
            (if off.natAbs / 1000000 % 60 ≠ 0 ∨ off.natAbs % 1000000 ≠ 0 then
              ':' :: pad2 (off.natAbs / 1000000 % 60) ++
                (if off.natAbs % 1000000 ≠ 0 then
                  '.' :: pad6 (off.natAbs % 1000000) else [])
            else [])) := by
      simp [formatOffset]
    have hassoc : pad2 hh ++ ':' :: pad2 mi ++ ':' :: pad2 se ++
        (if μ ≠ 0 then '.' :: pad6 μ else []) ++ formatOffset (some off) =
        (pad2 hh ++ ':' :: pad2 mi ++ ':' :: pad2 se ++
          (if μ ≠ 0 then '.' :: pad6 μ else [])) ++
          ((if off < 0 then '-' else '+') ::
            (pad2 (off.natAbs / 3600000000) ++ ':' ::
              pad2 (off.natAbs / 60000000 % 60) ++
              (if off.natAbs / 1000000 % 60 ≠ 0 ∨ off.natAbs % 1000000 ≠ 0 then
                ':' :: pad2 (off.natAbs / 1000000 % 60) ++
                  (if off.natAbs % 1000000 ≠ 0 then
                    '.' :: pad6 (off.natAbs % 1000000) else [])
              else []))) := by
      rw [hfo]
    rw [hassoc]
    have hsplit : splitSign ((pad2 hh ++ ':' :: pad2 mi ++ ':' :: pad2 se ++
        (if μ ≠ 0 then '.' :: pad6 μ else [])) ++
          ((if off < 0 then '-' else '+') ::
            (pad2 (off.natAbs / 3600000000) ++ ':' ::
              pad2 (off.natAbs / 60000000 % 60) ++
              (if off.natAbs / 1000000 % 60 ≠ 0 ∨ off.natAbs % 1000000 ≠ 0 then
                ':' :: pad2 (off.natAbs / 1000000 % 60) ++
                  (if off.natAbs % 1000000 ≠ 0 then
                    '.' :: pad6 (off.natAbs % 1000000) else [])
              else [])))) =
        some (pad2 hh ++ ':' :: pad2 mi ++ ':' :: pad2 se ++
          (if μ ≠ 0 then '.' :: pad6 μ else []), decide (¬off < 0),
          pad2 (off.natAbs / 3600000000) ++ ':' ::
            pad2 (off.natAbs / 60000000 % 60) ++
            (if off.natAbs / 1000000 % 60 ≠ 0 ∨ off.natAbs % 1000000 ≠ 0 then
              ':' :: pad2 (off.natAbs / 1000000 % 60) ++
                (if off.natAbs % 1000000 ≠ 0 then
                  '.' :: pad6 (off.natAbs % 1000000) else [])
            else [])) := by
      by_cases hneg : off < 0
      · rw [if_pos hneg]
        unfold splitSign
        rw [splitFirst_append
          (fun c hc => (timeChars_no_sign hh mi se μ c hc).1)]
        simp [hneg]
      · rw [if_neg hneg]
        unfold splitSign
        rw [splitFirst_not_mem, splitFirst_append
          (fun c hc => (timeChars_no_sign hh mi se μ c hc).2)]
        · simp [hneg]
        · intro c hc
          rcases List.mem_append.mp hc with hc | hc
          · exact (timeChars_no_sign hh mi se μ c hc).1
          · rcases List.mem_cons.mp hc with rfl | hc
            · decide
            · exact (offsetChars_no_sign _ _ _ _ c hc).1
    unfold parseIsoTime
    simp only [hsplit]
    simp only [parseHMSF_format hh mi se μ h1 h2 h3 h4]
    rw [if_pos (offsetChars_length (off.natAbs / 3600000000)
      (off.natAbs / 60000000 % 60) (off.natAbs / 1000000 % 60)
      (off.natAbs % 1000000))]
    simp only [parseHMSF_offset (off.natAbs / 3600000000)
      (off.natAbs / 60000000 % 60) (off.natAbs / 1000000 % 60)
      (off.natAbs % 1000000) (by omega) (by omega) (by omega) (by omega)]
    have htot : (((off.natAbs / 3600000000 * 3600 +
        off.natAbs / 60000000 % 60 * 60 + off.natAbs / 1000000 % 60) * 1000000 +
        off.natAbs % 1000000 : Nat) : Int) = (off.natAbs : Int) := by
      congr 1
      omega
    rw [htot]
    by_cases h0 : off = 0
    · subst h0
      simp
    · have hne0 : ¬((off.natAbs : Int) = 0) := by omega
      rw [if_neg hne0, if_pos (by exact_mod_cast hoff)]
      by_cases hneg : off < 0
      · have hplus : decide (¬off < 0) = false := by simp [hneg]
        have habs : -(off.natAbs : Int) = off := by omega
        rw [hplus, habs]
        simp
      · have hplus : decide (¬off < 0) = true := by simp [hneg]
        have habs : ((off.natAbs : Int)) = off := by omega
        rw [hplus]
        simp [habs]

/-- Formatting a valid timestamp and parsing the result returns the same
timestamp: `fromisoformat` inverts `isoformat` on every canonical
`isoformat` output. -/
theorem fromisoformat_isoformat (d : Datetime) (hv : d.valid = true) :
    Datetime.fromisoformat d.isoformat = some d := by
  obtain ⟨y, mo, dy, hh, mi, se, μ, tz⟩ := d
  have hb := hv
  simp only [Datetime.valid, Bool.and_eq_true, decide_eq_true_eq] at hb
  obtain ⟨⟨hy1, hy2, hmo1, hmo2, hdy1, hdy2, hhh, hmih, hseh, hμh⟩, htz⟩ := hb
  have htz' : ∀ off, tz = some off → off.natAbs < 86400000000 := by
    intro off hoff
    rw [hoff] at htz
    simpa using htz
  have hdata : (Datetime.isoformat ⟨y, mo, dy, hh, mi, se, μ, tz⟩).data =
      (pad4 y ++ '-' :: pad2 mo ++ '-' :: pad2 dy) ++ 'T' ::
        (pad2 hh ++ ':' :: pad2 mi ++ ':' :: pad2 se ++
          (if μ ≠ 0 then '.' :: pad6 μ else []) ++ formatOffset tz) := by
    simp [Datetime.isoformat, List.append_assoc]
  have hlen : (pad4 y ++ '-' :: pad2 mo ++ '-' :: pad2 dy).length = 10 := by
    simp [pad4, pad2]
  have htake : ((pad4 y ++ '-' :: pad2 mo ++ '-' :: pad2 dy) ++ 'T' ::
      (pad2 hh ++ ':' :: pad2 mi ++ ':' :: pad2 se ++
        (if μ ≠ 0 then '.' :: pad6 μ else []) ++ formatOffset tz)).take 10 =
      pad4 y ++ '-' :: pad2 mo ++ '-' :: pad2 dy := List.take_left' hlen
  have hsplit2 : (pad4 y ++ '-' :: pad2 mo ++ '-' :: pad2 dy) ++ 'T' ::
      (pad2 hh ++ ':' :: pad2 mi ++ ':' :: pad2 se ++
        (if μ ≠ 0 then '.' :: pad6 μ else []) ++ formatOffset tz) =
      ((pad4 y ++ '-' :: pad2 mo ++ '-' :: pad2 dy) ++ ['T']) ++
      (pad2 hh ++ ':' :: pad2 mi ++ ':' :: pad2 se ++
        (if μ ≠ 0 then '.' :: pad6 μ else []) ++ formatOffset tz) := by
    simp
  have hlen11 : ((pad4 y ++ '-' :: pad2 mo ++ '-' :: pad2 dy) ++ ['T']).length = 11 := by
    simp [pad4, pad2]
  have hdrop : ((pad4 y ++ '-' :: pad2 mo ++ '-' :: pad2 dy) ++ 'T' ::
      (pad2 hh ++ ':' :: pad2 mi ++ ':' :: pad2 se ++
        (if μ ≠ 0 then '.' :: pad6 μ else []) ++ formatOffset tz)).drop 11 =
      pad2 hh ++ ':' :: pad2 mi ++ ':' :: pad2 se ++
        (if μ ≠ 0 then '.' :: pad6 μ else []) ++ formatOffset tz := by
    rw [hsplit2]
    exact List.drop_left' hlen11
  have hne : (pad2 hh ++ ':' :: pad2 mi ++ ':' :: pad2 se ++
      (if μ ≠ 0 then '.' :: pad6 μ else []) ++ formatOffset tz).isEmpty = false := by
    simp [pad2]
  have hd31 : daysInMonth y mo ≤ 31 := by
    unfold daysInMonth
    split_ifs <;> omega
  unfold Datetime.fromisoformat
  rw [hdata, htake, parseIsoDate_format y mo dy (by omega) (by omega) (by omega),
    hdrop, hne]
  simp only [Bool.false_eq_true, if_false]
  rw [parseIsoTime_format hh mi se μ tz (by omega) (by omega) (by omega)
    (by omega) htz']
  simp [checkValid, hv]

/-- C6, amended: reading each field off the record returned by
`Package.parse` yields exactly the corresponding JSON field, with
`created_at` the parsed timestamp; and formatting the parsed `created_at`
yields back the original string whenever that string is a canonical
`isoformat` rendering (equivalently, `fromisoformat` inverts `isoformat`),
while other accepted ISO-8601 spellings — e.g. date-only strings — reformat
differently. -/
theorem package_parse_readback :
    (∀ (kvs : List (String × Json))
      (vn va vt vsd vld vr vp vrel vsc vlic vm vw vit vth vscr : Json)
      (s : String) (d : Datetime),
      lookupLast "created_at" kvs = some (.str s) →
      Datetime.fromisoformat s = some d →
      lookupLast "name" kvs = some vn →
      lookupLast "author" kvs = some va →
      lookupLast "title" kvs = some vt →
      lookupLast "short_description" kvs = some vsd →
      lookupLast "long_description" kvs = some vld →
      lookupLast "repo" kvs = some vr →
      lookupLast "provides" kvs = some vp →
      lookupLast "release" kvs = some vrel →
      lookupLast "score" kvs = some vsc →
      lookupLast "license" kvs = some vlic →
      lookupLast "maintainers" kvs = some vm →
      lookupLast "website" kvs = some vw →
      lookupLast "issue_tracker" kvs = some vit →
      lookupLast "thumbnail" kvs = some vth →
      lookupLast "screenshots" kvs = some vscr →
      Package.parse (.obj kvs) = .ok ⟨vn, va, vt, vsd, vld, vr, vp, vrel,
        vsc, vlic, d, vm, vw, vit, vth, vscr⟩) ∧
    (∀ d : Datetime, d.valid = true →
      Datetime.fromisoformat d.isoformat = some d) := by
  constructor
  · intro kvs vn va vt vsd vld vr vp vrel vsc vlic vm vw vit vth vscr s d
      hca hd h1 h2 h3 h4 h5 h6 h7 h8 h9 h10 h11 h12 h13 h14 h15
    simp [Package.parse, Json.get, hca, h1, h2, h3, h4, h5, h6, h7, h8, h9,
      h10, h11, h12, h13, h14, h15, asStr, parseTimestamp, hd, Bind.bind,
      Except.bind, pure, Except.pure]
  · exact fromisoformat_isoformat

/-- C6, amended, witness: the concrete `sampleDoc` parses to the expected
record and its canonical timestamp round-trips. -/
theorem package_parse_readback_witness :
    Package.parse sampleDoc = .ok samplePackage ∧
      Datetime.fromisoformat sampleDatetime.isoformat = some sampleDatetime :=
  ⟨package_parse_readback.1 _ _ _ _ _ _ _ _ _ _ _ _ _ _ _ _
      "2018-05-14T13:57:01" sampleDatetime (by decide) (by decide) (by decide)
      (by decide) (by decide) (by decide) (by decide) (by decide) (by decide)
      (by decide) (by decide) (by decide) (by decide) (by decide) (by decide)
      (by decide) (by decide),
    package_parse_readback.2 sampleDatetime (by decide)⟩

end MinetestPackages
